import Mathlib

/-!
# A shallow embedding of twit.py

Twit is a small frontend over git plumbing (`twit.py`).  This file models the
repository state that the git commands read and write (object store, refs,
HEAD, index, working tree, ignore rules) and translates every operation of
`GitExeRepo` / `TwitMixin` and the CLI `open` command into pure Lean
functions over that state.  Errors are modelled by `Except`; each fallible
operation returns the error (or result) together with the state at the time
of the raise, so partial mutation before a failure is observable.

Conventions of the embedding:
* object ids are strings `"oid"`, `"oidi"`, `"oidii"`, ... (git's hashes are
  opaque unique names; uniqueness is what matters, not their shape);
* a commit message is structured JSON metadata as produced by
  `TwitMixin.save` (`Msg.json branch note`, for
  `json.dumps({'branch': ..., 'note': ...})`), or text that parses as JSON
  without being such an object (`Msg.jsonOther`, on which `sinfo.get`
  raises an untyped `AttributeError`), or text that is not valid JSON at
  all (`Msg.text`, on which `json.loads` raises `ValueError`);
* `git checkout -q <target>` can be refused: when a staged change (index
  differing from HEAD) collides with the target tree at some path, git
  exits nonzero without touching anything, and `_git` ignores the exit
  status, so the refusal is a silent no-op;
* trees, the index and the working tree are association lists from path to
  file content; all queries go through `List.lookup`;
* `git status -z` semantics: ignored untracked files are not listed; the
  second status column compares the working tree against the index.
-/

namespace Twit

/-- File trees, the index and the working tree: path ↦ content. -/
abbrev Tree := List (String × String)

/-- Commit messages.  `TwitMixin.save` stores `json.dumps({'branch': b,
'note': n})`; `json.loads` on such a message recovers the `branch` field
(`Msg.json`).  A message that is valid JSON but not such an object — e.g.
`"42"`, `"[1]"`, `"null"` — parses fine, and `sinfo.get('branch', None)`
then dies with an untyped `AttributeError` (`Msg.jsonOther`).  A message
that is not valid JSON makes `json.loads` raise `ValueError` (`Msg.text`). -/
inductive Msg where
  | json (branch : Option String) (note : String)
  | jsonOther (s : String)
  | text (s : String)
deriving DecidableEq, Repr

/-- A commit object: message, author timestamp, parent object ids, and the
tree it snapshots (stored structurally).  Mirrors the fields parsed by
`GitExeRepo.commit_info` (twit.py 230-252), which returns the namedtuple
`CommitInfo(message, time, parents, tree)`. -/
structure Commit where
  message : Msg
  time : Nat
  parents : List String
  tree : Tree
deriving DecidableEq, Repr

/-- HEAD: symbolic ref to a branch (possibly unborn) or detached at an oid. -/
inductive Head where
  | branch (name : String)
  | detached (oid : String)
deriving DecidableEq, Repr

/-- The repository state visible to twit through git plumbing. -/
structure Repo where
  /-- commit store: oid ↦ commit (prepend on write; `lookup` is authoritative). -/
  objects : List (String × Commit)
  /-- ref store: full ref path (e.g. `refs/heads/master`) ↦ oid. -/
  refs : List (String × String)
  head : Head
  index : Tree
  worktree : Tree
  /-- paths matched by the ignore rules (gitignore); never mutated by twit. -/
  ignored : List String
  /-- commit timestamps come from this clock (`git commit-tree` records the
  current time); bumped on each commit. -/
  clock : Nat
deriving DecidableEq, Repr

/-- Errors.  The `TwitError` taxonomy of twit.py plus the untyped Python
errors the code can also raise (`ValueError` in `GitExeRepo.reset`,
`OSError` from `os.remove('')` in `GitExeRepo.discard_all`,
`AttributeError` from `sinfo.get` on a non-object JSON message in
`TwitMixin.open_snapshot`). -/
inductive Err where
  | notARepository
  | detachedHead
  | unbornBranch
  | dirtyWorkTree
  | invalidRef (msg : String)
  | invalidSnapshot (msg : String)
  | valueError (msg : String)
  | osError (msg : String)
  | attributeError (msg : String)
deriving DecidableEq, Repr

/-- Whether an error belongs to the `TwitError` exception taxonomy
(twit.py 25-58).  `ValueError`, `OSError` and `AttributeError` are builtin
Python errors. -/
def Err.isTwitError : Err → Bool
  | .valueError _ => false
  | .osError _ => false
  | .attributeError _ => false
  | _ => true

instance {ε α : Type} [DecidableEq ε] [DecidableEq α] : DecidableEq (Except ε α) :=
  fun x y =>
  match x, y with
  | Except.ok a, Except.ok b =>
    if h : a = b then isTrue (by rw [h]) else isFalse (by intro he; cases he; exact h rfl)
  | Except.ok _, Except.error _ => isFalse (fun he => Except.noConfusion he)
  | Except.error _, Except.ok _ => isFalse (fun he => Except.noConfusion he)
  | Except.error a, Except.error b =>
    if h : a = b then isTrue (by rw [h]) else isFalse (by intro he; cases he; exact h rfl)

/-- Resolution of `HEAD` to a commit (`git rev-parse --verify -q HEAD`):
the oid when detached, the branch tip when attached, `none` when the
current branch is unborn. -/
def resolveHead (r : Repo) : Option String :=
  match r.head with
  | Head.detached oid => some oid
  | Head.branch b => r.refs.lookup ("refs/heads/" ++ b)

/-- The tree of a stored commit (empty for an unknown oid, which is
unreachable in well-formed states). -/
def treeOfOid (r : Repo) (oid : String) : Tree :=
  match r.objects.lookup oid with
  | some c => c.tree
  | none => []

/-- The tree of the commit HEAD resolves to (empty when unborn). -/
def headTree (r : Repo) : Tree :=
  match resolveHead r with
  | some oid => treeOfOid r oid
  | none => []

/-- `GitExeRepo.rev_parse` (twit.py 225-228): `git rev-parse --verify -q`.
Resolution order per gitrevisions: `HEAD`, a raw object id, an exact ref
path, `refs/<name>`, `refs/heads/<name>`.  Returns `none` where the git
call prints nothing (the Python method returns `''`). -/
def rev_parse (r : Repo) (s : String) : Option String :=
  if s = "HEAD" then resolveHead r
  else if (r.objects.lookup s).isSome then some s
  else match r.refs.lookup s with
  | some oid => some oid
  | none =>
    match r.refs.lookup ("refs/" ++ s) with
    | some oid => some oid
    | none => r.refs.lookup ("refs/heads/" ++ s)

/-- `GitExeRepo.current_branch` (twit.py 107-114): `git symbolic-ref -q
HEAD`, raising `DetachedHead` when HEAD is not symbolic. -/
def current_branch (r : Repo) : Except Err String :=
  match r.head with
  | Head.branch b => Except.ok b
  | Head.detached _ => Except.error Err.detachedHead

/-- `GitExeRepo.detached_head` (twit.py 116-121). -/
def detached_head (r : Repo) : Bool :=
  match r.head with
  | Head.branch _ => false
  | Head.detached _ => true

/-- `GitExeRepo.unborn` (twit.py 123-126): `not self.rev_parse('HEAD')`. -/
def unborn (r : Repo) : Bool :=
  (resolveHead r).isNone

/-- `GitExeRepo.refs` (twit.py 128-132): the ref names listed by
`git for-each-ref`. -/
def refsList (r : Repo) : List String :=
  r.refs.map Prod.fst

/-- Whether some tracked path's working-tree content differs from the index
(a `git status` line whose second column is `M` or `D`). -/
def worktreeDelta (r : Repo) : Bool :=
  r.index.any fun kv => !(r.worktree.lookup kv.1 == r.index.lookup kv.1)

/-- Whether some untracked, non-ignored file exists (a `??` status line;
ignored files are not listed by `git status -z`). -/
def untrackedNew (r : Repo) : Bool :=
  r.worktree.any fun kv => (r.index.lookup kv.1).isNone && !(r.ignored.contains kv.1)

/-- Whether the index differs from HEAD's tree (a status line whose first
column is `M`, `A` or `D`). -/
def indexDelta (r : Repo) : Bool :=
  (r.index.any fun kv => !((headTree r).lookup kv.1 == r.index.lookup kv.1)) ||
  ((headTree r).any fun kv => (r.index.lookup kv.1).isNone)

/-- `GitExeRepo.dirty` (twit.py 143-154) faithfully: parse `git status -z`;
return `None` when the status listing is empty, otherwise `True` iff some
line's work-tree column (`line[1]`) is neither `' '` nor `'!'` — i.e. some
working file differs from the index, or an untracked non-ignored file
exists.  Lines whose only change is in the index column (staged-only
changes, staged deletions) have `' '` in the work-tree column. -/
def dirtyOpt (r : Repo) : Option Bool :=
  if worktreeDelta r || untrackedNew r || indexDelta r then
    some (worktreeDelta r || untrackedNew r)
  else
    none

/-- The truthiness of `GitExeRepo.dirty` as used by every caller
(`if self.dirty:`): Python's `None` is falsy. -/
def dirty (r : Repo) : Bool :=
  (dirtyOpt r).getD false

/-- `GitExeRepo.stage_all` (twit.py 156-159): `git add --all .` mirrors the
working tree into the index — adds untracked non-ignored files, updates
already-tracked files (even if ignored), stages deletions. -/
def stagedTree (r : Repo) : Tree :=
  r.worktree.filter fun kv => !(r.ignored.contains kv.1) || (r.index.lookup kv.1).isSome

def stage_all (r : Repo) : Repo :=
  { r with index := stagedTree r }

/-- `GitExeRepo.unstage_all` (twit.py 161-168): `git read-tree HEAD`, or
`git read-tree --empty` when HEAD has no commit. -/
def unstage_all (r : Repo) : Repo :=
  match resolveHead r with
  | some h => { r with index := treeOfOid r h }
  | none => { r with index := [] }

/-- The working tree after `git reset --hard <target>` (and after a
checkout whose index already equals HEAD's tree): tracked paths follow the
target tree, paths tracked in the index but absent from the target are
removed, untracked files not clobbered by the target survive. -/
def checkoutWT (r : Repo) (t : Tree) : Tree :=
  t ++ r.worktree.filter fun kv => (r.index.lookup kv.1).isNone && (t.lookup kv.1).isNone

/-- Whether git refuses `git checkout -q` to target tree `t`: per the
two-way merge of `unpack_trees`, a path conflicts ("Your local changes
... would be overwritten by checkout") when the index entry, HEAD's tree
entry and the target entry differ pairwise — a staged change the switch
cannot carry over.  Every conflicting path is keyed in the index or in
HEAD's tree, so scanning their keys is exhaustive.  (Working-tree-only
conflicts cannot arise here: twit runs checkout only behind its `dirty`
check, under which the working tree agrees with the index on tracked
paths and untracked non-ignored files are absent; untracked ignored files
are clobbered without complaint.) -/
def ckConflict (r : Repo) (t : Tree) : Bool :=
  (r.index ++ headTree r).any fun kv =>
    !(r.index.lookup kv.1 == (headTree r).lookup kv.1) &&
    !(t.lookup kv.1 == (headTree r).lookup kv.1) &&
    !(r.index.lookup kv.1 == t.lookup kv.1)

/-- The index a successful `git checkout -q` to tree `t` produces: the
two-way merge keeps a staged entry wherever the target agrees with HEAD
and takes the target entry elsewhere. -/
def ckMerge (r : Repo) (t : Tree) : Tree :=
  (t.filter fun kv => !(t.lookup kv.1 == (headTree r).lookup kv.1)) ++
  (r.index.filter fun kv => t.lookup kv.1 == (headTree r).lookup kv.1)

/-- The working tree after a successful `git checkout -q` to tree `t`:
the merged entries, plus untracked files the target does not clobber. -/
def ckWT (r : Repo) (t : Tree) : Tree :=
  ckMerge r t ++ r.worktree.filter fun kv =>
    (r.index.lookup kv.1).isNone && ((ckMerge r t).lookup kv.1).isNone

/-- State change of `git checkout -q <ref>`: when a staged change
conflicts with the target, git refuses and exits nonzero — and `_git`
ignores the exit status, so the refusal is a silent no-op.  Otherwise the
switch attaches HEAD only when `ref` is literally a branch name
(`refs/heads/<ref>` exists), else detaches at the resolved oid; index and
working tree move to the two-way merge of the target with the staged
state. -/
def gitCheckout (r : Repo) (ref : String) : Repo :=
  match rev_parse r ref with
  | none => r
  | some oid =>
    let t := treeOfOid r oid
    if ckConflict r t then r
    else
      { r with
        head := if (r.refs.lookup ("refs/heads/" ++ ref)).isSome
                then Head.branch ref else Head.detached oid
        index := ckMerge r t
        worktree := ckWT r t }

/-- State change of `git reset --<mode> <ref>`: moves HEAD (the current
branch ref when attached, the detached oid otherwise); `mixed` also resets
the index, `hard` also the working tree. -/
def gitReset (r : Repo) (ref : String) (mode : String) : Repo :=
  match rev_parse r ref with
  | none => r
  | some oid =>
    let r1 := match r.head with
      | Head.detached _ => { r with head := Head.detached oid }
      | Head.branch b => { r with refs := ("refs/heads/" ++ b, oid) :: r.refs }
    let t := treeOfOid r oid
    if mode = "soft" then r1
    else if mode = "mixed" then { r1 with index := t }
    else { r1 with index := t, worktree := checkoutWT r t }

/-- `GitExeRepo.discard_all` (twit.py 170-180): stage everything, then
`git reset --hard HEAD`; on an unborn branch instead `os.remove` every
`git ls-files` path.  With an empty index `ls-files` yields `['']` after
the split and `os.remove('')` raises an untyped `OSError`. -/
def discard_all (r : Repo) : Except Err Unit × Repo :=
  let r1 := stage_all r
  match resolveHead r1 with
  | none =>
    if r1.index.isEmpty then
      (Except.error (Err.osError "os.remove of empty path"), r1)
    else
      (Except.ok (), { r1 with
        worktree := r1.worktree.filter fun kv => (r1.index.lookup kv.1).isNone })
  | some h => (Except.ok (), gitReset r1 h "hard")

/-- `GitExeRepo.safe_checkout` (twit.py 182-189). -/
def safe_checkout (ref : String) (r : Repo) : Except Err Unit × Repo :=
  if dirty r then (Except.error Err.dirtyWorkTree, r)
  else if (rev_parse r ref).isNone then (Except.error (Err.invalidRef ""), r)
  else (Except.ok (), gitCheckout r ref)

/-- The `n`-th object id: git hashes are opaque unique names, modelled as
`"oid"` followed by `n` copies of `'i'`. -/
def oidName (n : Nat) : String :=
  "oid" ++ String.mk (List.replicate n 'i')

/-- The next fresh object id. -/
def freshOid (r : Repo) : String :=
  oidName r.objects.length

/-- `GitExeRepo.commit` (twit.py 191-203): `git write-tree`, parent from
`rev-parse HEAD` (omitted when unborn), target ref from the argument or
from `symbolic-ref HEAD`, then `commit-tree` and `update-ref`. -/
def commit (message : Msg) (refArg : Option String) (r : Repo) : String × Repo :=
  let tree := r.index
  let prev := resolveHead r
  let ref : Option String :=
    match refArg with
    | some x => some x
    | none =>
      match r.head with
      | Head.branch b => some ("refs/heads/" ++ b)
      | Head.detached _ => none
  let oid := freshOid r
  let c : Commit := { message := message, time := r.clock, parents := prev.toList, tree := tree }
  let r1 := { r with objects := (oid, c) :: r.objects, clock := r.clock + 1 }
  match ref with
  | some rf => (oid, { r1 with refs := (rf, oid) :: r1.refs })
  | none => (oid, r1)

/-- `GitExeRepo.reset` (twit.py 205-215).  The reset-type check comes
first and raises an untyped `ValueError`; then `InvalidRef` for an
unresolvable ref, `UnbornBranch` when HEAD has no commit; note there is no
dirtiness check. -/
def reset (ref : String) (reset_type : String) (r : Repo) : Except Err Unit × Repo :=
  if !(reset_type = "soft" || reset_type = "hard" || reset_type = "mixed") then
    (Except.error (Err.valueError "invalid reset type"), r)
  else if (rev_parse r ref).isNone then (Except.error (Err.invalidRef ""), r)
  else if (resolveHead r).isNone then (Except.error Err.unbornBranch, r)
  else (Except.ok (), gitReset r ref reset_type)

/-- `GitExeRepo.set_head` (twit.py 217-223): `git symbolic-ref HEAD
refs/heads/<branch>`; unless forced, the branch must resolve. -/
def set_head (branch : String) (force : Bool) (r : Repo) : Except Err Unit × Repo :=
  let ref := "refs/heads/" ++ branch
  if !force && (rev_parse r ref).isNone then (Except.error (Err.invalidRef ""), r)
  else (Except.ok (), { r with head := Head.branch branch })

/-- `GitExeRepo.commit_info` (twit.py 230-252): resolve, `git cat-file -p`,
parse message / author time / parents / tree.  The returned namedtuple has
the same fields as `Commit`.  The `none` branch of the store lookup is
unreachable in well-formed states (a resolvable oid is stored). -/
def commit_info (ref : String) (r : Repo) : Except Err Commit × Repo :=
  match rev_parse r ref with
  | none => (Except.error (Err.invalidRef ""), r)
  | some oid =>
    match r.objects.lookup oid with
    | some c => (Except.ok c, r)
    | none => (Except.ok { message := Msg.text "", time := 0, parents := [], tree := [] }, r)

/-- The hidden snapshot ref with integer suffix `k`:
`'refs/hidden/tags/twit/{}'.format(k)`. -/
def snapName (k : Nat) : String :=
  "refs/hidden/tags/twit/" ++ Nat.repr k

/-- `TwitMixin.snapshots` (twit.py 258-264): the listed refs filtered by
the `refs/hidden/tags/twit/` namespace. -/
def snapshots (r : Repo) : List String :=
  (refsList r).filter fun n => "refs/hidden/tags/twit/".data.isPrefixOf n.data

/-- `TwitMixin.snapshot_commits` (twit.py 266-272): `rev_parse` of every
snapshot ref (`none` standing for the empty string on failure). -/
def snapshot_commits (r : Repo) : List (Option String) :=
  (snapshots r).map (rev_parse r)

/-- The `while ... in self.refs` search of `TwitMixin.save` (twit.py
277-279), with enough fuel to scan past every existing ref. -/
def freeLoop (r : Repo) : Nat → Nat → Nat
  | 0, k => k
  | fuel + 1, k =>
    if (r.refs.lookup (snapName k)).isSome then freeLoop r fuel (k + 1) else k

/-- The first integer suffix `k ≥ 1` whose snapshot ref is unused. -/
def freeSnapIndex (r : Repo) : Nat :=
  freeLoop r (r.refs.length + 1) 1

/-- `TwitMixin.save` (twit.py 274-291): stage all, pick the next free
snapshot ref, embed the current branch (`None` when detached — the
`DetachedHead` raise is caught) in the JSON message, commit to the snapshot
ref, unstage. -/
def save (r : Repo) : Except Err String × Repo :=
  let r1 := stage_all r
  let ref := snapName (freeSnapIndex r1)
  let branch : Option String :=
    match current_branch r1 with
    | Except.ok b => some b
    | Except.error _ => none
  let message := Msg.json branch "Tag auto-generated by Twit."
  let r2 := (commit message (some ref) r1).2
  (Except.ok ref, unstage_all r2)

/-- The branch embedded by `save` in the snapshot metadata: the current
branch, or `None` when HEAD is detached (the `DetachedHead` raise of
`current_branch` is caught in `save`). -/
def branchOf (r : Repo) : Option String :=
  match r.head with
  | Head.branch b => some b
  | Head.detached _ => none

/-- The commit object a `save` call creates. -/
def snapCommit (r : Repo) : Commit :=
  { message := Msg.json (branchOf r) "Tag auto-generated by Twit."
    time := r.clock
    parents := (resolveHead r).toList
    tree := stagedTree r }

/-- The repository state after `save`: one new commit, one new snapshot
ref, the index reset to HEAD's tree (empty when unborn), everything else
untouched.  Proved below to be exactly what `save` produces. -/
def savedRepo (r : Repo) : Repo :=
  { r with objects := (freshOid r, snapCommit r) :: r.objects
           refs := (snapName (freeSnapIndex r), freshOid r) :: r.refs
           index := headTree r
           clock := r.clock + 1 }

/-- The branch-reattachment step of `TwitMixin.open_snapshot` (twit.py
326-339): after restoring, repoint HEAD at the originating branch only
when that is unambiguous — forced when the snapshot and the branch are
both unborn, plain when the branch tip still equals the snapshot's parent;
otherwise stay detached. -/
def reattach (branch : Option String) (parent : Option String) (r : Repo) :
    Except Err Unit × Repo :=
  match branch with
  | none => (Except.ok (), r)
  | some b =>
    let branch_commit := rev_parse r b
    match parent with
    | none =>
      if branch_commit = none then set_head b true r else (Except.ok (), r)
    | some p =>
      if branch_commit = some p then set_head b false r else (Except.ok (), r)

/-- `TwitMixin.open_snapshot` (twit.py 293-339). -/
def open_snapshot (ref : String) (r : Repo) : Except Err Unit × Repo :=
  if dirty r then (Except.error Err.dirtyWorkTree, r)
  else
    match rev_parse r ref with
    | none => (Except.error (Err.invalidRef "not a Twit snapshot"), r)
    | some oid =>
      if !((snapshot_commits r).contains (some oid)) then
        (Except.error (Err.invalidRef "not a Twit snapshot"), r)
      else
        match commit_info oid r with
        | (Except.error e, r') => (Except.error e, r')
        | (Except.ok cinfo, r') =>
          if cinfo.parents.length > 1 then
            (Except.error (Err.invalidSnapshot "multiple parent commits"), r')
          else
            let parent : Option String := cinfo.parents.head?
            match cinfo.message with
            | Msg.text _ => (Except.error (Err.invalidSnapshot "message is invalid json"), r')
            | Msg.jsonOther _ =>
              (Except.error (Err.attributeError "json value has no attribute get"), r')
            | Msg.json branch _ =>
              match safe_checkout oid r' with
              | (Except.error e, r2) => (Except.error e, r2)
              | (Except.ok _, r2) =>
                match parent with
                | none =>
                  match set_head ("twit/snapshot/unborn" ++ Nat.repr cinfo.time) true r2 with
                  | (Except.error e, r3) => (Except.error e, r3)
                  | (Except.ok _, r3) => reattach branch none (unstage_all r3)
                | some p =>
                  match reset p "mixed" r2 with
                  | (Except.error e, r3) => (Except.error e, r3)
                  | (Except.ok _, r3) => reattach branch (some p) r3

/-- `TwitMixin.open` (twit.py 341-354): resolve the argument directly,
falling back to `refs/heads/<ref>`; dispatch snapshots to `open_snapshot`,
everything else to `safe_checkout`. -/
def open' (ref : String) (r : Repo) : Except Err Unit × Repo :=
  if dirty r then (Except.error Err.dirtyWorkTree, r)
  else
    match rev_parse r ref with
    | some oid =>
      if (snapshot_commits r).contains (some oid) then open_snapshot oid r
      else safe_checkout ref r
    | none =>
      let ref2 := "refs/heads/" ++ ref
      match rev_parse r ref2 with
      | none => (Except.error (Err.invalidRef ""), r)
      | some oid =>
        if (snapshot_commits r).contains (some oid) then open_snapshot oid r
        else safe_checkout ref2 r

/-- Outcomes of the CLI `open` command: a propagated typed error, or the
untyped `UnboundLocalError` raised when the `except InvalidRef` handler
reads the never-assigned `snapshot` variable. -/
inductive CliErr where
  | twit (e : Err)
  | unboundLocal
deriving DecidableEq, Repr

/-- The CLI `open` command (twit.py 382-394): auto-save and discard when
dirty, open the revision, and on `InvalidRef` reopen the auto-saved
snapshot — whose local variable is unbound when the tree was clean. -/
def cli_open (revision : String) (r : Repo) : Except CliErr Unit × Repo :=
  let step1 : Except Err (Option String) × Repo :=
    if dirty r then
      match save r with
      | (Except.ok s, r1) =>
        match discard_all r1 with
        | (Except.ok _, r2) => (Except.ok (some s), r2)
        | (Except.error e, r2) => (Except.error e, r2)
      | (Except.error e, r1) => (Except.error e, r1)
    else (Except.ok none, r)
  match step1 with
  | (Except.error e, r1) => (Except.error (CliErr.twit e), r1)
  | (Except.ok snapshot, r1) =>
    match open' revision r1 with
    | (Except.ok _, r2) => (Except.ok (), r2)
    | (Except.error (Err.invalidRef _), r2) =>
      (match snapshot with
       | none => (Except.error CliErr.unboundLocal, r2)
       | some s =>
         match open' s r2 with
         | (Except.ok _, r3) => (Except.ok (), r3)
         | (Except.error e, r3) => (Except.error (CliErr.twit e), r3))
    | (Except.error e, r2) => (Except.error (CliErr.twit e), r2)

/-! ## Well-formedness

Hygiene facts every repository reachable through git satisfies: object ids
are the opaque hash names, refs live under `refs/heads/` or the hidden
snapshot namespace and point at stored commits, parents of stored commits
are stored, and HEAD is a plausible branch name or a stored commit. -/

/-- A sane branch name: not the literal `HEAD`, not shaped like an object
id, not a full ref path, and not inside the namespaces that would collide
with `refs/<name>` resolution (`heads/...`) or with the hidden snapshot
refs (`hidden/tags/twit/...`). -/
structure BranchOk (b : String) : Prop where
  neHEAD : b ≠ "HEAD"
  notOidName : ¬ ("oid".data <+: b.data)
  notRefPath : ¬ ("refs/".data <+: b.data)
  notHeadsNs : ¬ ("heads/".data <+: b.data)
  notSnapNs : ¬ ("hidden/tags/twit/".data <+: b.data)

/-- Well-formed repository states. -/
structure WF (r : Repo) : Prop where
  objIdx : ∀ kv ∈ r.objects, ∃ n ∈ List.range r.objects.length, kv.1 = oidName n
  refKeys : ∀ kv ∈ r.refs,
    ("refs/heads/".data <+: kv.1.data) ∨ ("refs/hidden/tags/twit/".data <+: kv.1.data)
  refVals : ∀ kv ∈ r.refs, (r.objects.lookup kv.2).isSome = true
  parentsStored : ∀ kv ∈ r.objects, ∀ p ∈ kv.2.parents, (r.objects.lookup p).isSome = true
  noOidBranch : ∀ kv ∈ r.refs, ¬ ("refs/heads/oid".data <+: kv.1.data)
  headBranch : ∀ b, r.head = Head.branch b → BranchOk b
  headStored : ∀ o, r.head = Head.detached o → (r.objects.lookup o).isSome = true

/-! ## Spec-side definitions

Definitions written from the words of the specification, for comparison
against the code-derived definitions above. -/

/-- The dirtiness condition as claim C3 words it: the index or some tracked
file differs from HEAD's tree, ignored entries excluded. -/
def SpecDirtyC3 (r : Repo) : Prop :=
  ∃ p, p ∉ r.ignored ∧
    (r.index.lookup p ≠ (headTree r).lookup p ∨
      (((r.index.lookup p).isSome ∨ ((headTree r).lookup p).isSome) ∧
        r.worktree.lookup p ≠ (headTree r).lookup p))

/-- The dirtiness condition the code actually implements, worded from the
status semantics: some working-tree file differs from the index, or some
non-ignored untracked file exists. -/
def SpecDirtyAmended (r : Repo) : Prop :=
  (∃ p, (r.index.lookup p).isSome ∧ r.worktree.lookup p ≠ r.index.lookup p) ∨
  (∃ p, (r.worktree.lookup p).isSome ∧ (r.index.lookup p).isNone ∧ p ∉ r.ignored)

/-- The result ref of a `save` call (which always succeeds). -/
def refOf : Except Err String → String
  | Except.ok s => s
  | Except.error _ => ""

/-! ## Concrete states -/

/-- The root commit of the small example repositories. -/
def exCommit0 : Commit :=
  { message := Msg.text "init", time := 0, parents := [], tree := [("a", "v1")] }

/-- A one-commit clean repository on branch `master`. -/
def ex0 : Repo :=
  { objects := [(oidName 0, exCommit0)]
    refs := [("refs/heads/master", oidName 0)]
    head := Head.branch "master"
    index := [("a", "v1")]
    worktree := [("a", "v1")]
    ignored := []
    clock := 1 }

/-- `ex0` with a working-tree edit: dirty. -/
def exDirty : Repo :=
  { ex0 with worktree := [("a", "v2")] }

/-- `ex0` with a staged-only change: the index differs from HEAD's tree but
the working tree matches the index (status `M `, clean per the code). -/
def exStaged : Repo :=
  { ex0 with index := [("a", "v2")], worktree := [("a", "v2")] }

/-- A repository whose ignored file `p` is tracked in HEAD but was removed
from the index (a staged deletion of an ignored file, status `D `): clean
per the code, yet the restore loses `p`. -/
def exIgnored : Repo :=
  { objects := [(oidName 0,
      { message := Msg.text "init", time := 0, parents := [], tree := [("p", "v")] })]
    refs := [("refs/heads/master", oidName 0)]
    head := Head.branch "master"
    index := []
    worktree := [("p", "v")]
    ignored := ["p"]
    clock := 1 }

/-- `ex0` with an index that matches neither HEAD nor the working tree:
dirty, and a mixed reset visibly rewrites the index. -/
def exDirtyIdx : Repo :=
  { ex0 with index := [("b", "x")], worktree := [("a", "v2")] }

/-- A snapshot taken on `master` at `oidName 0`, after which `master`
advanced to a new commit `oidName 1`: the branch has diverged from the
snapshot's parent. -/
def exMoved : Repo :=
  { objects :=
      [(oidName 0, exCommit0),
       (oidName 1,
        { message := Msg.text "more", time := 1, parents := [oidName 0], tree := [("a", "v2")] }),
       (oidName 2,
        { message := Msg.json (some "master") "Tag auto-generated by Twit.", time := 2,
          parents := [oidName 0], tree := [("a", "v1")] })]
    refs := [("refs/heads/master", oidName 1), (snapName 1, oidName 2)]
    head := Head.branch "master"
    index := [("a", "v2")]
    worktree := [("a", "v2")]
    ignored := []
    clock := 3 }

/-- A snapshot taken on the unborn branch `master` (no parent), with
`master` still unborn at open time. -/
def exUnborn : Repo :=
  { objects := [(oidName 0,
      { message := Msg.json (some "master") "Tag auto-generated by Twit.", time := 5,
        parents := [], tree := [("b", "x")] })]
    refs := [(snapName 1, oidName 0)]
    head := Head.branch "master"
    index := [("b", "x")]
    worktree := [("b", "x")]
    ignored := []
    clock := 6 }

/-- A snapshot taken on branch `B` at `oidName 0` (tree `p ↦ v1`,
snapshot tree `p ↦ v3`), after which `B` advanced to `oidName 1`
(tree `p ↦ v4`) and `p ↦ v2` was staged: the staged entry differs from
HEAD, from the snapshot tree and from HEAD's tree pairwise, so the
checkout of the snapshot is refused — silently. -/
def exC1 : Repo :=
  { objects :=
      [(oidName 0,
        { message := Msg.text "init", time := 0, parents := [], tree := [("p", "v1")] }),
       (oidName 1,
        { message := Msg.text "more", time := 1, parents := [oidName 0],
          tree := [("p", "v4")] }),
       (oidName 2,
        { message := Msg.json (some "B") "Tag auto-generated by Twit.", time := 2,
          parents := [oidName 0], tree := [("p", "v3")] })]
    refs := [("refs/heads/B", oidName 1), (snapName 1, oidName 2)]
    head := Head.branch "B"
    index := [("p", "v2")]
    worktree := [("p", "v2")]
    ignored := []
    clock := 3 }

/-- A foreign commit planted in the snapshot namespace whose message is
valid JSON but not an object (`"42"`): `json.loads` succeeds and
`sinfo.get` crashes with an untyped `AttributeError`. -/
def exForeign : Repo :=
  { objects := [(oidName 0,
      { message := Msg.jsonOther "42", time := 0, parents := [], tree := [("a", "v1")] })]
    refs := [("refs/heads/master", oidName 0), (snapName 1, oidName 0)]
    head := Head.branch "master"
    index := [("a", "v1")]
    worktree := [("a", "v1")]
    ignored := []
    clock := 1 }

/-! ## Toolkit: lists, strings, decimal numerals -/

theorem take_app_le {α} {n : Nat} {l₁ l₂ : List α} (h : n ≤ l₁.length) :
    (l₁ ++ l₂).take n = l₁.take n := by
  rw [List.take_append_eq_append_take, Nat.sub_eq_zero_of_le h, List.take_zero,
    List.append_nil]

theorem pfx_app_cases {α} {p c x : List α} (h : p <+: c ++ x) :
    p <+: c ∨ c <+: p := by
  obtain ⟨t, ht⟩ := h
  rcases Nat.le_total p.length c.length with hl | hl
  · left
    have h1 : (p ++ t).take p.length = p := List.take_left p t
    rw [ht, take_app_le hl] at h1
    rw [← h1]
    exact List.take_prefix _ _
  · right
    have h1 : (p ++ t).take c.length = p.take c.length := take_app_le hl
    rw [ht, List.take_left] at h1
    rw [h1]
    exact List.take_prefix _ _

theorem pfx_cancel {α} {l a b : List α} (h : l ++ a <+: l ++ b) : a <+: b := by
  obtain ⟨t, ht⟩ := h
  rw [List.append_assoc] at ht
  exact ⟨t, List.append_cancel_left ht⟩

theorem ne_of_app_data {p x q y : String} (h1 : ¬(p.data <+: q.data))
    (h2 : ¬(q.data <+: p.data)) : p ++ x ≠ q ++ y := by
  intro he
  have hd := congrArg String.data he
  rw [String.data_append, String.data_append] at hd
  have hp : p.data <+: q.data ++ y.data := hd ▸ List.prefix_append _ _
  rcases pfx_app_cases hp with hc | hc
  exacts [h1 hc, h2 hc]

theorem key_nlookup {β} {l : List (String × β)} (P : String → Prop)
    (hall : ∀ kv ∈ l, P kv.1) {k : String} (hk : ¬ P k) : l.lookup k = none := by
  rw [List.lookup_eq_none_iff]
  intro p hp
  simp only [bne_iff_ne, ne_eq]
  intro h
  exact hk (h ▸ hall p hp)

/-! Decimal numerals: `Nat.repr` is injective.  Proved by relating the
fuelled `Nat.toDigitsCore` to `Nat.digits`. -/

theorem toDigitsCore_eq_digits (f : Nat) : ∀ n ds, 0 < n → n ≤ f →
    Nat.toDigitsCore 10 f n ds = ((Nat.digits 10 n).map Nat.digitChar).reverse ++ ds := by
  induction f with
  | zero => intro n ds h0 hf; omega
  | succ f ih =>
    intro n ds h0 hf
    rw [Nat.digits_def' (by norm_num : 1 < 10) h0]
    simp only [Nat.toDigitsCore]
    by_cases hdiv : n / 10 = 0
    · simp [hdiv, Nat.digits_zero]
    · have hlt : n / 10 < n := Nat.div_lt_self h0 (by norm_num)
      rw [if_neg hdiv, ih (n / 10) _ (Nat.pos_of_ne_zero hdiv) (by omega)]
      simp [List.append_assoc]

theorem repr_eq_of_pos {n : Nat} (h : 0 < n) :
    Nat.repr n = String.mk ((Nat.digits 10 n).map Nat.digitChar).reverse := by
  show (Nat.toDigits 10 n).asString = _
  rw [Nat.toDigits, toDigitsCore_eq_digits (n + 1) n [] h (by omega)]
  simp [List.asString]

theorem digitChar_inj_lt : ∀ a < 10, ∀ b < 10, Nat.digitChar a = Nat.digitChar b → a = b := by
  decide

theorem map_digitChar_inj : ∀ l₁ l₂ : List Nat, (∀ x ∈ l₁, x < 10) → (∀ x ∈ l₂, x < 10) →
    l₁.map Nat.digitChar = l₂.map Nat.digitChar → l₁ = l₂ := by
  intro l₁
  induction l₁ with
  | nil => intro l₂ _ _ h; cases l₂ <;> simp_all
  | cons a t iht =>
    intro l₂ h1 h2 h
    cases l₂ with
    | nil => simp_all
    | cons b t₂ =>
      simp only [List.map_cons, List.cons.injEq] at h
      have ha := h1 a (by simp)
      have hb := h2 b (by simp)
      have := digitChar_inj_lt a ha b hb h.1
      subst this
      rw [iht t₂ (fun x hx => h1 x (by simp [hx])) (fun x hx => h2 x (by simp [hx])) h.2]

theorem repr_pos_ne_repr_zero {n : Nat} (hn : 0 < n) (h : Nat.repr n = Nat.repr 0) :
    False := by
  rw [repr_eq_of_pos hn] at h
  have hd : ((Nat.digits 10 n).map Nat.digitChar).reverse = ['0'] :=
    congrArg String.data h
  have hmap : (Nat.digits 10 n).map Nat.digitChar = ['0'] := by
    have := congrArg List.reverse hd
    simpa using this
  cases hdig : Nat.digits 10 n with
  | nil => rw [hdig] at hmap; simp at hmap
  | cons d t =>
    rw [hdig] at hmap
    cases t with
    | cons d₂ t₂ => simp at hmap
    | nil =>
      simp only [List.map_cons, List.map_nil, List.cons.injEq, and_true] at hmap
      have hdlt : d < 10 := Nat.digits_lt_base (by norm_num) (by rw [hdig]; simp)
      have hd0 : d = 0 :=
        digitChar_inj_lt d hdlt 0 (by norm_num) (by rw [hmap]; rfl)
      have h2 := Nat.ofDigits_digits 10 n
      rw [hdig, hd0] at h2
      simp [Nat.ofDigits] at h2
      omega

theorem natRepr_inj {m n : Nat} (h : Nat.repr m = Nat.repr n) : m = n := by
  rcases Nat.eq_zero_or_pos m with hm | hm <;> rcases Nat.eq_zero_or_pos n with hn | hn
  · omega
  · subst hm
    exact (repr_pos_ne_repr_zero hn h.symm).elim
  · subst hn
    exact (repr_pos_ne_repr_zero hm h).elim
  · rw [repr_eq_of_pos hm, repr_eq_of_pos hn] at h
    have hd : ((Nat.digits 10 m).map Nat.digitChar).reverse =
        ((Nat.digits 10 n).map Nat.digitChar).reverse := congrArg String.data h
    have hmap := List.reverse_injective hd
    have hdig := map_digitChar_inj _ _
      (fun x hx => Nat.digits_lt_base (by norm_num) hx)
      (fun x hx => Nat.digits_lt_base (by norm_num) hx) hmap
    calc m = Nat.ofDigits 10 (Nat.digits 10 m) := (Nat.ofDigits_digits 10 m).symm
    _ = Nat.ofDigits 10 (Nat.digits 10 n) := by rw [hdig]
    _ = n := Nat.ofDigits_digits 10 n

/-! ## Name hygiene -/

theorem not_pfx_of_app {α} {p c : List α} (x : List α) (h1 : ¬ p <+: c)
    (h2 : ¬ c <+: p) : ¬ p <+: (c ++ x) := fun h => (pfx_app_cases h).elim h1 h2

theorem ne_of_hd {s t : String} (h : s.data.head? ≠ t.data.head?) : s ≠ t :=
  fun he => h (he ▸ rfl)

theorem oidName_data (n : Nat) : (oidName n).data = "oid".data ++ List.replicate n 'i' := rfl

theorem snapName_data (k : Nat) :
    (snapName k).data = "refs/hidden/tags/twit/".data ++ (Nat.repr k).data := rfl

theorem oidName_inj {m n : Nat} (h : oidName m = oidName n) : m = n := by
  have hd := congrArg String.data h
  rw [oidName_data, oidName_data] at hd
  have h1 := List.append_cancel_left hd
  have h2 := congrArg List.length h1
  simpa using h2

theorem snapName_inj {m n : Nat} (h : snapName m = snapName n) : m = n := by
  have hd := congrArg String.data h
  rw [snapName_data, snapName_data] at hd
  exact natRepr_inj (String.ext (List.append_cancel_left hd))

theorem oidName_hd (n : Nat) : (oidName n).data.head? = some 'o' := by
  rw [oidName_data]; rfl

theorem snapName_hd (k : Nat) : (snapName k).data.head? = some 'r' := by
  rw [snapName_data]; rfl

theorem headsApp_hd (x : String) : ("refs/heads/" ++ x).data.head? = some 'r' := by
  rw [String.data_append]; rfl

theorem headsApp_data (x : String) :
    ("refs/heads/" ++ x).data = "refs/heads/".data ++ x.data := String.data_append _ _

/-- A branch ref path never equals a snapshot ref path. -/
theorem headsApp_ne_snapName (x : String) (k : Nat) : "refs/heads/" ++ x ≠ snapName k := by
  intro h
  have hd := congrArg String.data h
  rw [headsApp_data, snapName_data] at hd
  have hp : "refs/heads/".data <+: "refs/hidden/tags/twit/".data ++ (Nat.repr k).data :=
    hd ▸ List.prefix_append _ _
  exact (not_pfx_of_app _ (by decide) (by decide)) hp

theorem objKey_pfx {r : Repo} (hwf : WF r) :
    ∀ kv ∈ r.objects, "oid".data <+: kv.1.data := by
  intro kv hkv
  obtain ⟨n, _, hn⟩ := hwf.objIdx kv hkv
  rw [hn, oidName_data]
  exact List.prefix_append _ _

theorem objKey_hd {r : Repo} (hwf : WF r) :
    ∀ kv ∈ r.objects, kv.1.data.head? = some 'o' := by
  intro kv hkv
  obtain ⟨n, _, hn⟩ := hwf.objIdx kv hkv
  rw [hn]
  exact oidName_hd n

theorem refKey_hd {r : Repo} (hwf : WF r) :
    ∀ kv ∈ r.refs, kv.1.data.head? = some 'r' := by
  intro kv hkv
  rcases hwf.refKeys kv hkv with hc | hc
  · obtain ⟨t, ht⟩ := hc; rw [← ht]; rfl
  · obtain ⟨t, ht⟩ := hc; rw [← ht]; rfl

theorem obj_lookup_none_hd {r : Repo} {s : String} (hwf : WF r)
    (h : s.data.head? ≠ some 'o') : r.objects.lookup s = none :=
  key_nlookup (fun k => k.data.head? = some 'o') (objKey_hd hwf) h

theorem obj_lookup_none_pfx {r : Repo} {s : String} (hwf : WF r)
    (h : ¬ ("oid".data <+: s.data)) : r.objects.lookup s = none :=
  key_nlookup (fun k => "oid".data <+: k.data) (objKey_pfx hwf) h

theorem refs_lookup_none_hd {r : Repo} {s : String} (hwf : WF r)
    (h : s.data.head? ≠ some 'r') : r.refs.lookup s = none :=
  key_nlookup (fun k => k.data.head? = some 'r') (refKey_hd hwf) h

theorem refs_lookup_none_pfx {r : Repo} {s : String} (hwf : WF r)
    (h : ¬ ("refs/".data <+: s.data)) : r.refs.lookup s = none := by
  refine key_nlookup
    (fun k => ("refs/heads/".data <+: k.data) ∨ ("refs/hidden/tags/twit/".data <+: k.data))
    hwf.refKeys ?_
  rintro (hc | hc)
  · exact h (List.IsPrefix.trans (by decide) hc)
  · exact h (List.IsPrefix.trans (by decide) hc)

/-- A sane branch name does not resolve through `refs/<name>`. -/
theorem refs_app_lookup_none {r : Repo} {b : String} (hwf : WF r) (hb : BranchOk b) :
    r.refs.lookup ("refs/" ++ b) = none := by
  refine key_nlookup
    (fun k => ("refs/heads/".data <+: k.data) ∨ ("refs/hidden/tags/twit/".data <+: k.data))
    hwf.refKeys ?_
  have e : ("refs/" ++ b).data = "refs/".data ++ b.data := String.data_append _ _
  rintro (hc | hc)
  · rw [e] at hc
    have e2 : "refs/heads/".data = "refs/".data ++ "heads/".data := by decide
    rw [e2] at hc
    exact hb.notHeadsNs (pfx_cancel hc)
  · rw [e] at hc
    have e2 : "refs/hidden/tags/twit/".data = "refs/".data ++ "hidden/tags/twit/".data := by
      decide
    rw [e2] at hc
    exact hb.notSnapNs (pfx_cancel hc)

/-- Resolving a sane branch name reads exactly `refs/heads/<name>`. -/
theorem rev_parse_branch {r : Repo} {b : String} (hwf : WF r) (hb : BranchOk b) :
    rev_parse r b = r.refs.lookup ("refs/heads/" ++ b) := by
  unfold rev_parse
  rw [if_neg hb.neHEAD, obj_lookup_none_pfx hwf hb.notOidName,
    refs_lookup_none_pfx hwf hb.notRefPath, refs_app_lookup_none hwf hb]
  rfl

/-- If an object id is stored, `rev_parse` resolves it to itself. -/
theorem rev_parse_obj {r : Repo} {s : String} (hwf : WF r)
    (h : (r.objects.lookup s).isSome = true) : rev_parse r s = some s := by
  have hne : s ≠ "HEAD" := by
    rw [List.lookup_isSome_iff] at h
    obtain ⟨p, hp, he⟩ := h
    refine ne_of_hd ?_
    rw [beq_iff_eq] at he
    rw [he, objKey_hd hwf p hp]
    decide
  unfold rev_parse
  rw [if_neg hne, if_pos h]

/-- If a snapshot ref is present, `rev_parse` resolves it by direct ref
lookup. -/
theorem rev_parse_snapref_some {r : Repo} {k : Nat} {o : String} (hwf : WF r)
    (h : r.refs.lookup (snapName k) = some o) : rev_parse r (snapName k) = some o := by
  unfold rev_parse
  rw [if_neg (ne_of_hd (by rw [snapName_hd]; decide)),
    obj_lookup_none_hd hwf (by rw [snapName_hd]; decide), h]
  rfl

/-- If a branch ref path is present, `rev_parse` resolves it by direct ref
lookup. -/
theorem rev_parse_headsref_some {r : Repo} {x o : String} (hwf : WF r)
    (h : r.refs.lookup ("refs/heads/" ++ x) = some o) :
    rev_parse r ("refs/heads/" ++ x) = some o := by
  unfold rev_parse
  rw [if_neg (ne_of_hd (by rw [headsApp_hd]; decide)),
    obj_lookup_none_hd hwf (by rw [headsApp_hd]; decide), h]
  rfl

/-- No branch is named like an object id, so `git checkout <oid>` detaches:
the branch-existence probe fails. -/
theorem branch_oid_lookup_none {r : Repo} {n : Nat} (hwf : WF r) :
    r.refs.lookup ("refs/heads/" ++ oidName n) = none := by
  refine key_nlookup (fun k => ¬ ("refs/heads/oid".data <+: k.data)) hwf.noOidBranch ?_
  intro hc
  apply hc
  have e : ("refs/heads/" ++ oidName n).data =
      "refs/heads/oid".data ++ List.replicate n 'i' := by
    rw [headsApp_data, oidName_data, ← List.append_assoc]
    rfl
  rw [e]
  exact List.prefix_append _ _

/-! ## The snapshot-ref search and the effect of `save` -/

theorem lookup_cons_ne {β} {l : List (String × β)} {a k : String} {b : β}
    (h : k ≠ a) : ((a, b) :: l).lookup k = l.lookup k := by
  rw [List.lookup_cons, show (k == a) = false from beq_eq_false_iff_ne.mpr h]

theorem lookup_cons_isSome {β} {l : List (String × β)} {a k : String} {b : β}
    (h : (l.lookup k).isSome = true) : (((a, b) :: l).lookup k).isSome = true := by
  rw [List.lookup_cons]
  split <;> simp [h]

theorem freeLoop_congr {r' r : Repo} (h : r'.refs = r.refs) :
    ∀ f k, freeLoop r' f k = freeLoop r f k := by
  intro f
  induction f with
  | zero => intro k; rfl
  | succ f ih =>
    intro k
    simp only [freeLoop, h]
    by_cases hc : (r.refs.lookup (snapName k)).isSome = true
    · rw [if_pos hc, if_pos hc, ih]
    · rw [if_neg hc, if_neg hc]

theorem freeSnapIndex_congr {r' r : Repo} (h : r'.refs = r.refs) :
    freeSnapIndex r' = freeSnapIndex r := by
  unfold freeSnapIndex
  rw [freeLoop_congr h, h]

theorem freeLoop_min (r : Repo) : ∀ f k,
    (∃ j, k ≤ j ∧ j < k + f ∧ (r.refs.lookup (snapName j)).isSome = false) →
    (r.refs.lookup (snapName (freeLoop r f k))).isSome = false ∧
    k ≤ freeLoop r f k ∧
    ∀ j, k ≤ j → j < freeLoop r f k → (r.refs.lookup (snapName j)).isSome = true := by
  intro f
  induction f with
  | zero =>
    intro k hex
    obtain ⟨j, h1, h2, _⟩ := hex
    omega
  | succ f ih =>
    intro k hex
    simp only [freeLoop]
    by_cases hk : (r.refs.lookup (snapName k)).isSome = true
    · rw [if_pos hk]
      have hex' : ∃ j, k + 1 ≤ j ∧ j < (k + 1) + f ∧
          (r.refs.lookup (snapName j)).isSome = false := by
        obtain ⟨j, h1, h2, h3⟩ := hex
        have hne : j ≠ k := by
          intro he
          subst he
          rw [h3] at hk
          exact absurd hk (by decide)
        exact ⟨j, by omega, by omega, h3⟩
      obtain ⟨c1, c2, c3⟩ := ih (k + 1) hex'
      refine ⟨c1, by omega, ?_⟩
      intro j hj1 hj2
      rcases Nat.eq_or_lt_of_le hj1 with he | hlt
      · rw [← he]; exact hk
      · exact c3 j hlt hj2
    · rw [if_neg hk]
      refine ⟨by rw [Bool.eq_false_iff]; exact hk, Nat.le_refl _, ?_⟩
      intro j h1 h2
      omega

theorem snap_free_exists (r : Repo) :
    ∃ j, 1 ≤ j ∧ j < 1 + (r.refs.length + 1) ∧
      (r.refs.lookup (snapName j)).isSome = false := by
  by_contra hno
  push_neg at hno
  have hall : ∀ j, 1 ≤ j → j < r.refs.length + 2 →
      (r.refs.lookup (snapName j)).isSome = true := by
    intro j h1 h2
    have h3 := hno j h1 (by omega)
    cases hb : (r.refs.lookup (snapName j)).isSome
    · exact absurd hb h3
    · rfl
  have hsub : ∀ x ∈ (List.range' 1 (r.refs.length + 1)).map snapName,
      x ∈ r.refs.map Prod.fst := by
    intro x hx
    simp only [List.mem_map] at hx ⊢
    obtain ⟨j, hj, rfl⟩ := hx
    rw [List.mem_range'] at hj
    obtain ⟨i, hi, rfl⟩ := hj
    have hsome := hall (1 + 1 * i) (by omega) (by omega)
    rw [List.lookup_isSome_iff] at hsome
    obtain ⟨p, hp, he⟩ := hsome
    exact ⟨p, hp, (beq_iff_eq.mp he).symm⟩
  have hnd : ((List.range' 1 (r.refs.length + 1)).map snapName).Nodup :=
    (List.nodup_range' _ _).map (fun {a b} h => snapName_inj h)
  have hcard : ((List.range' 1 (r.refs.length + 1)).map snapName).toFinset.card ≤
      (r.refs.map Prod.fst).toFinset.card := by
    apply Finset.card_le_card
    intro x hx
    rw [List.mem_toFinset] at hx ⊢
    exact hsub x hx
  rw [List.toFinset_card_of_nodup hnd] at hcard
  have h1 : ((List.range' 1 (r.refs.length + 1)).map snapName).length =
      r.refs.length + 1 := by simp
  have h2 : (r.refs.map Prod.fst).toFinset.card ≤ r.refs.length := by
    calc (r.refs.map Prod.fst).toFinset.card ≤ (r.refs.map Prod.fst).length :=
      List.toFinset_card_le _
    _ = r.refs.length := by simp
  omega

/-- The snapshot ref chosen by `save` is genuinely free, and every smaller
positive suffix is taken. -/
theorem freeSnapIndex_spec (r : Repo) :
    r.refs.lookup (snapName (freeSnapIndex r)) = none ∧
    1 ≤ freeSnapIndex r ∧
    ∀ j, 1 ≤ j → j < freeSnapIndex r → (r.refs.lookup (snapName j)).isSome = true := by
  obtain ⟨hfree, hge, hmin⟩ := freeLoop_min r (r.refs.length + 1) 1 (snap_free_exists r)
  refine ⟨?_, hge, hmin⟩
  rw [Bool.eq_false_iff] at hfree
  exact Option.not_isSome_iff_eq_none.mp hfree

theorem fresh_lookup_none {r : Repo} (hwf : WF r) :
    r.objects.lookup (freshOid r) = none := by
  refine key_nlookup (fun k => ∃ n ∈ List.range r.objects.length, k = oidName n)
    hwf.objIdx ?_
  rintro ⟨n, hn, he⟩
  rw [List.mem_range] at hn
  have := oidName_inj he
  omega

theorem refs_value_stored {r : Repo} (hwf : WF r) {k o : String}
    (h : r.refs.lookup k = some o) : (r.objects.lookup o).isSome = true := by
  rw [List.lookup_eq_some_iff] at h
  obtain ⟨l₁, l₂, he, -⟩ := h
  have hm : (k, o) ∈ r.refs := by rw [he]; simp
  exact hwf.refVals (k, o) hm

theorem head_lookup_isSome {r : Repo} (hwf : WF r) {h : String}
    (hh : resolveHead r = some h) : (r.objects.lookup h).isSome = true := by
  unfold resolveHead at hh
  cases hr : r.head with
  | detached o =>
    rw [hr] at hh
    obtain rfl : o = h := Option.some.inj hh
    exact hwf.headStored _ hr
  | branch b =>
    rw [hr] at hh
    exact refs_value_stored hwf hh

theorem save_fst (r : Repo) : (save r).1 = Except.ok (snapName (freeSnapIndex r)) := by
  show Except.ok (snapName (freeSnapIndex (stage_all r))) = _
  rw [freeSnapIndex_congr (show (stage_all r).refs = r.refs from rfl)]

/-- What `save` does to the state: commit the staged tree to the fresh
snapshot ref, then reset the index to HEAD's tree. -/
theorem save_snd (r : Repo) (hwf : WF r) : (save r).2 = savedRepo r := by
  have hfree : freeSnapIndex (stage_all r) = freeSnapIndex r :=
    freeSnapIndex_congr rfl
  show unstage_all (commit _ (some (snapName (freeSnapIndex (stage_all r)))) (stage_all r)).2
      = savedRepo r
  rw [hfree]
  have hcommit : (commit (Msg.json (match current_branch (stage_all r) with
      | Except.ok b => some b
      | Except.error _ => none) "Tag auto-generated by Twit.")
      (some (snapName (freeSnapIndex r))) (stage_all r)).2 =
      { r with objects := (freshOid r, snapCommit r) :: r.objects
               refs := (snapName (freeSnapIndex r), freshOid r) :: r.refs
               index := stagedTree r
               clock := r.clock + 1 } := by
    unfold commit snapCommit branchOf
    cases hh : r.head <;>
      simp [stage_all, current_branch, resolveHead, freshOid, hh]
  rw [hcommit]
  have e2 : resolveHead
      { r with objects := (freshOid r, snapCommit r) :: r.objects
               refs := (snapName (freeSnapIndex r), freshOid r) :: r.refs
               index := stagedTree r
               clock := r.clock + 1 } = resolveHead r := by
    unfold resolveHead
    cases hh : r.head with
    | branch b =>
      exact lookup_cons_ne (headsApp_ne_snapName b _)
    | detached o => rfl
  unfold unstage_all
  rw [e2]
  cases hres : resolveHead r with
  | none =>
    simp [savedRepo, headTree, hres]
  | some hd =>
    have hne : hd ≠ freshOid r := by
      intro he
      have h1 := head_lookup_isSome hwf hres
      rw [he, fresh_lookup_none hwf] at h1
      exact absurd h1 (by decide)
    simp [savedRepo, headTree, hres, treeOfOid, lookup_cons_ne hne]

/-! ## Well-formedness of the example states -/

theorem branchOk_master : BranchOk "master" :=
  ⟨by decide, by decide, by decide, by decide, by decide⟩

theorem wf_ex0 : WF ex0 := by
  refine ⟨by decide, by decide, by decide, by decide, by decide, ?_, ?_⟩
  · intro b hb
    simp only [ex0] at hb
    cases hb
    exact branchOk_master
  · intro o ho
    simp only [ex0] at ho
    exact Head.noConfusion ho

theorem wf_exDirty : WF exDirty := by
  refine ⟨by decide, by decide, by decide, by decide, by decide, ?_, ?_⟩
  · intro b hb
    simp only [exDirty, ex0] at hb
    cases hb
    exact branchOk_master
  · intro o ho
    simp only [exDirty, ex0] at ho
    exact Head.noConfusion ho

theorem wf_exMoved : WF exMoved := by
  refine ⟨by decide, by decide, by decide, by decide, by decide, ?_, ?_⟩
  · intro b hb
    simp only [exMoved] at hb
    cases hb
    exact branchOk_master
  · intro o ho
    simp only [exMoved] at ho
    exact Head.noConfusion ho

theorem wf_exUnborn : WF exUnborn := by
  refine ⟨by decide, by decide, by decide, by decide, by decide, ?_, ?_⟩
  · intro b hb
    simp only [exUnborn] at hb
    cases hb
    exact branchOk_master
  · intro o ho
    simp only [exUnborn] at ho
    exact Head.noConfusion ho

theorem branchOk_B : BranchOk "B" :=
  ⟨by decide, by decide, by decide, by decide, by decide⟩

theorem wf_exC1 : WF exC1 := by
  refine ⟨by decide, by decide, by decide, by decide, by decide, ?_, ?_⟩
  · intro b hb
    simp only [exC1] at hb
    cases hb
    exact branchOk_B
  · intro o ho
    simp only [exC1] at ho
    exact Head.noConfusion ho

theorem wf_exForeign : WF exForeign := by
  refine ⟨by decide, by decide, by decide, by decide, by decide, ?_, ?_⟩
  · intro b hb
    simp only [exForeign] at hb
    cases hb
    exact branchOk_master
  · intro o ho
    simp only [exForeign] at ho
    exact Head.noConfusion ho

/-! ## C10: invalid reset type -/

/-- C10: for every ref argument and every repository state, calling `reset`
with a mode outside soft/mixed/hard raises `ValueError` — an untyped error
outside the `TwitError` taxonomy — before any repository query or
mutation, leaving the state unchanged. -/
theorem C10_reset_invalid_type (r : Repo) (ref mode : String)
    (h : ¬(mode = "soft" ∨ mode = "hard" ∨ mode = "mixed")) :
    reset ref mode r = (Except.error (Err.valueError "invalid reset type"), r) ∧
    Err.isTwitError (Err.valueError "invalid reset type") = false := by
  push_neg at h
  refine ⟨?_, rfl⟩
  have hc : (!(mode = "soft" || mode = "hard" || mode = "mixed" : Bool)) = true := by
    simp [h.1, h.2.1, h.2.2]
  unfold reset
  rw [if_pos hc]

theorem C10_reset_invalid_type_witness :
    reset "HEAD" "bogus" ex0 = (Except.error (Err.valueError "invalid reset type"), ex0) ∧
    Err.isTwitError (Err.valueError "invalid reset type") = false :=
  C10_reset_invalid_type ex0 "HEAD" "bogus" (by decide)

/-! ## C5: the dirty-tree guard -/

/-- C5 (amended): on a dirty tree, `safe_checkout` and `open_snapshot` fail
with `DirtyWorkTree` before any mutation; `GitExeRepo.reset` performs no
dirtiness check (see the counterexample). -/
theorem C5_dirty_guard (r : Repo) (ref : String) (h : dirty r = true) :
    safe_checkout ref r = (Except.error Err.dirtyWorkTree, r) ∧
    open_snapshot ref r = (Except.error Err.dirtyWorkTree, r) := by
  constructor
  · unfold safe_checkout
    rw [if_pos h]
  · unfold open_snapshot
    rw [if_pos h]

theorem C5_dirty_guard_witness :
    dirty exDirty = true ∧
    safe_checkout "master" exDirty = (Except.error Err.dirtyWorkTree, exDirty) ∧
    open_snapshot "master" exDirty = (Except.error Err.dirtyWorkTree, exDirty) :=
  ⟨by decide, C5_dirty_guard exDirty "master" (by decide)⟩

/-- C5 counterexample: on a dirty tree, `reset` does not fail with
`DirtyWorkTree` — it performs the reset and mutates the index. -/
theorem C5_counterexample :
    dirty exDirtyIdx = true ∧
    (reset "master" "mixed" exDirtyIdx).1 = Except.ok () ∧
    (reset "master" "mixed" exDirtyIdx).2.index ≠ exDirtyIdx.index := by
  refine ⟨by decide, by decide, by decide⟩

/-! ## C3: what `dirty` reports -/

/-- C3 counterexample: a staged-only change (index differs from HEAD's
tree, working tree matches the index) is dirty per the claim but clean per
the code. -/
theorem C3_counterexample :
    SpecDirtyC3 exStaged ∧ dirty exStaged = false :=
  ⟨⟨"a", by decide, Or.inl (by decide)⟩, by decide⟩

theorem specAmended_iff (r : Repo) :
    SpecDirtyAmended r ↔ (worktreeDelta r || untrackedNew r) = true := by
  unfold SpecDirtyAmended worktreeDelta untrackedNew
  rw [Bool.or_eq_true, List.any_eq_true, List.any_eq_true]
  constructor
  · rintro (⟨p, hs, hne⟩ | ⟨p, hs, hn, hnig⟩)
    · left
      rw [Option.isSome_iff_exists] at hs
      obtain ⟨v, hv⟩ := hs
      rw [List.lookup_eq_some_iff] at hv
      obtain ⟨l₁, l₂, he, -⟩ := hv
      refine ⟨(p, v), by rw [he]; simp, ?_⟩
      simpa using hne
    · right
      rw [Option.isSome_iff_exists] at hs
      obtain ⟨v, hv⟩ := hs
      rw [List.lookup_eq_some_iff] at hv
      obtain ⟨l₁, l₂, he, -⟩ := hv
      refine ⟨(p, v), by rw [he]; simp, ?_⟩
      simp [hn, hnig]
  · rintro (⟨kv, hm, hp⟩ | ⟨kv, hm, hp⟩)
    · left
      refine ⟨kv.1, ?_, ?_⟩
      · rw [List.lookup_isSome_iff]
        exact ⟨kv, hm, by simp⟩
      · simp only [Bool.not_eq_true', beq_eq_false_iff_ne] at hp
        exact hp
    · right
      simp only [Bool.and_eq_true, Bool.not_eq_true'] at hp
      refine ⟨kv.1, ?_, hp.1, ?_⟩
      · rw [List.lookup_isSome_iff]
        exact ⟨kv, hm, by simp⟩
      · intro hmem
        have hc : r.ignored.contains kv.1 = true := List.elem_eq_true_of_mem hmem
        rw [hc] at hp
        exact absurd hp.2 (by decide)

/-- C3 (amended): the truthy value of `dirty` holds iff some working-tree
file differs from the index or an untracked non-ignored file exists;
staged-only differences from HEAD's tree do not count, and a repository
with an empty status listing (in particular an unborn one with no files)
reports the falsy `None`. -/
theorem C3_dirty_amended (r : Repo) : dirty r = true ↔ SpecDirtyAmended r := by
  rw [specAmended_iff]
  unfold dirty dirtyOpt
  by_cases hc : (worktreeDelta r || untrackedNew r || indexDelta r) = true
  · rw [if_pos hc]
    simp
  · rw [if_neg hc]
    simp only [Option.getD_none]
    constructor
    · intro hfalse
      exact absurd hfalse (by decide)
    · intro hab
      exfalso
      apply hc
      rcases Bool.or_eq_true _ _ |>.mp hab with h1 | h1 <;> simp [h1]

/-! ## C6: the index after `save` -/

/-- C6 counterexample: a staged-but-uncommitted change is not preserved by
`save` — the index is reset to HEAD's tree, not to its pre-save state. -/
theorem C6_counterexample :
    (save exStaged).2.index ≠ exStaged.index := by
  decide

/-- C6 (amended): after `save` the index equals HEAD's tree (empty when the
branch is unborn); any staged/unstaged split present before the call is
collapsed to all-unstaged. -/
theorem C6_save_index (r : Repo) (hwf : WF r) : (save r).2.index = headTree r := by
  rw [save_snd r hwf]
  rfl

theorem C6_save_index_witness :
    (save ex0).2.index = headTree ex0 :=
  C6_save_index ex0 wf_ex0

/-! ## C7: the side effects of `save` -/

/-- C7: `save` returns the new snapshot ref; its side effects are exactly
one new commit object and one new ref — under the hidden snapshot
namespace, with the smallest unused positive integer suffix — while the
working tree is untouched and no existing ref (the current branch
included) is repointed. -/
theorem C7_save_effects (r : Repo) (hwf : WF r) :
    (save r).1 = Except.ok (snapName (freeSnapIndex r)) ∧
    (save r).2.objects = (freshOid r, snapCommit r) :: r.objects ∧
    r.objects.lookup (freshOid r) = none ∧
    (save r).2.refs = (snapName (freeSnapIndex r), freshOid r) :: r.refs ∧
    r.refs.lookup (snapName (freeSnapIndex r)) = none ∧
    1 ≤ freeSnapIndex r ∧
    (∀ j, 1 ≤ j → j < freeSnapIndex r → (r.refs.lookup (snapName j)).isSome = true) ∧
    (save r).2.worktree = r.worktree ∧
    (∀ n, n ≠ snapName (freeSnapIndex r) → (save r).2.refs.lookup n = r.refs.lookup n) := by
  obtain ⟨hfree, hge, hmin⟩ := freeSnapIndex_spec r
  refine ⟨save_fst r, ?_, fresh_lookup_none hwf, ?_, hfree, hge, hmin, ?_, ?_⟩
  · rw [save_snd r hwf]; rfl
  · rw [save_snd r hwf]; rfl
  · rw [save_snd r hwf]; rfl
  · intro n hn
    rw [save_snd r hwf]
    exact lookup_cons_ne hn

theorem C7_save_effects_witness :
    (save ex0).1 = Except.ok (snapName (freeSnapIndex ex0)) ∧
    (save ex0).2.objects = (freshOid ex0, snapCommit ex0) :: ex0.objects ∧
    ex0.objects.lookup (freshOid ex0) = none ∧
    (save ex0).2.refs = (snapName (freeSnapIndex ex0), freshOid ex0) :: ex0.refs ∧
    ex0.refs.lookup (snapName (freeSnapIndex ex0)) = none ∧
    1 ≤ freeSnapIndex ex0 ∧
    (∀ j, 1 ≤ j → j < freeSnapIndex ex0 → (ex0.refs.lookup (snapName j)).isSome = true) ∧
    (save ex0).2.worktree = ex0.worktree ∧
    (∀ n, n ≠ snapName (freeSnapIndex ex0) → (save ex0).2.refs.lookup n = ex0.refs.lookup n) :=
  C7_save_effects ex0 wf_ex0

/-! ## Error shapes of the restore pipeline -/

theorem lookup_mem {β} {l : List (String × β)} {k : String} {v : β}
    (h : l.lookup k = some v) : (k, v) ∈ l := by
  rw [List.lookup_eq_some_iff] at h
  obtain ⟨l₁, l₂, he, -⟩ := h
  rw [he]
  simp

/-- `rev_parse` ignores the parts of the state other than the stores, for
any name other than `HEAD`. -/
theorem rev_parse_congr {r' r : Repo} (h1 : r'.objects = r.objects)
    (h2 : r'.refs = r.refs) {s : String} (hs : s ≠ "HEAD") :
    rev_parse r' s = rev_parse r s := by
  unfold rev_parse
  rw [if_neg hs, if_neg hs, h1, h2]

theorem set_head_forced (b : String) (r : Repo) :
    set_head b true r = (Except.ok (), { r with head := Head.branch b }) := by
  unfold set_head
  simp

theorem safe_checkout_no_invalidSnapshot (ref : String) (r : Repo) (m : String) :
    (safe_checkout ref r).1 ≠ Except.error (Err.invalidSnapshot m) := by
  unfold safe_checkout
  split
  · simp
  · split <;> simp

theorem set_head_no_invalidSnapshot (b : String) (f : Bool) (r : Repo) (m : String) :
    (set_head b f r).1 ≠ Except.error (Err.invalidSnapshot m) := by
  simp only [set_head]
  split <;> simp

theorem reset_no_invalidSnapshot (ref t : String) (r : Repo) (m : String) :
    (reset ref t r).1 ≠ Except.error (Err.invalidSnapshot m) := by
  unfold reset
  split
  · simp
  · split
    · simp
    · split <;> simp

theorem reattach_no_invalidSnapshot (br p : Option String) (r : Repo) (m : String) :
    (reattach br p r).1 ≠ Except.error (Err.invalidSnapshot m) := by
  unfold reattach
  cases br with
  | none => simp
  | some b =>
    cases p with
    | none =>
      dsimp only
      split
      · exact set_head_no_invalidSnapshot b true r m
      · simp
    | some q =>
      dsimp only
      split
      · exact set_head_no_invalidSnapshot b false r m
      · simp

/-! ## C8: when `open_snapshot` rejects a snapshot -/

/-- C8 (amended): for a clean tree and a ref resolving to a commit in the
snapshot namespace, `open_snapshot` fails with `InvalidSnapshot` exactly
when the snapshot commit has more than one parent or its message is not
valid JSON at all (`json.loads` raises); a message that parses as JSON
without being a metadata object is NOT answered with `InvalidSnapshot` —
`sinfo.get` dies with an untyped `AttributeError` instead (see the
counterexample) — and with well-formed metadata the call never reports
`InvalidSnapshot`. -/
theorem C8_invalid_snapshot (r : Repo) (ref oid : String) (c : Commit)
    (hwf : WF r)
    (hclean : dirty r = false)
    (hres : rev_parse r ref = some oid)
    (hmem : (snapshot_commits r).contains (some oid) = true)
    (hobj : r.objects.lookup oid = some c) :
    (∃ m, (open_snapshot ref r).1 = Except.error (Err.invalidSnapshot m)) ↔
      (1 < c.parents.length ∨ ∃ s, c.message = Msg.text s) := by
  have hinfo : commit_info oid r = (Except.ok c, r) := by
    unfold commit_info
    rw [rev_parse_obj hwf (by rw [hobj]; rfl)]
    dsimp only
    rw [hobj]
  unfold open_snapshot
  rw [if_neg (by rw [hclean]; decide), hres]
  dsimp only
  rw [if_neg (by rw [hmem]; decide), hinfo]
  dsimp only
  by_cases hlen : 1 < c.parents.length
  · rw [if_pos (by simpa using hlen)]
    simp [hlen]
  · rw [if_neg (by simpa using hlen)]
    cases hmsg : c.message with
    | text s =>
      constructor
      · intro _
        exact Or.inr ⟨s, rfl⟩
      · intro _
        exact ⟨"message is invalid json", rfl⟩
    | jsonOther s =>
      refine iff_of_false ?_ ?_
      · rintro ⟨m, hm⟩
        have hm' : Except.error (Err.attributeError "json value has no attribute get") =
            (Except.error (Err.invalidSnapshot m) : Except Err Unit) := hm
        exact absurd (Except.error.inj hm') (by simp)
      · rintro (h1 | ⟨s', hs'⟩)
        · exact hlen h1
        · exact Msg.noConfusion hs'
    | json br nt =>
      constructor
      · rintro ⟨m, hm⟩
        exfalso
        rcases hsc : safe_checkout oid r with ⟨sres, r2⟩
        rw [hsc] at hm
        cases sres with
        | error e =>
          simp only at hm
          apply safe_checkout_no_invalidSnapshot oid r m
          rw [hsc]
          simpa using hm
        | ok u =>
          cases hp : c.parents.head? with
          | none =>
            rw [hp] at hm
            simp only at hm
            rcases hsh : set_head ("twit/snapshot/unborn" ++ Nat.repr c.time) true r2
              with ⟨hres2, r3⟩
            rw [hsh] at hm
            cases hres2 with
            | error e =>
              simp only at hm
              apply set_head_no_invalidSnapshot ("twit/snapshot/unborn" ++ Nat.repr c.time)
                true r2 m
              rw [hsh]
              simpa using hm
            | ok u2 =>
              simp only at hm
              apply reattach_no_invalidSnapshot br none (unstage_all r3) m
              simpa using hm
          | some q =>
            rw [hp] at hm
            simp only at hm
            rcases hrs : reset q "mixed" r2 with ⟨rres, r3⟩
            rw [hrs] at hm
            cases rres with
            | error e =>
              simp only at hm
              apply reset_no_invalidSnapshot q "mixed" r2 m
              rw [hrs]
              simpa using hm
            | ok u2 =>
              simp only at hm
              apply reattach_no_invalidSnapshot br (some q) r3 m
              simpa using hm
      · rintro (h1 | ⟨s, hs⟩)
        · exact absurd h1 hlen
        · exact Msg.noConfusion hs

theorem C8_invalid_snapshot_witness :
    dirty exMoved = false ∧
    rev_parse exMoved (snapName 1) = some (oidName 2) ∧
    (snapshot_commits exMoved).contains (some (oidName 2)) = true ∧
    exMoved.objects.lookup (oidName 2) =
      some { message := Msg.json (some "master") "Tag auto-generated by Twit.", time := 2,
             parents := [oidName 0], tree := [("a", "v1")] } ∧
    ((∃ m, (open_snapshot (snapName 1) exMoved).1 = Except.error (Err.invalidSnapshot m)) ↔
      (1 < ([oidName 0] : List String).length ∨
        ∃ s, Msg.json (some "master") "Tag auto-generated by Twit." = Msg.text s)) :=
  ⟨by decide, by decide, by decide, by decide,
    C8_invalid_snapshot exMoved (snapName 1) (oidName 2)
      { message := Msg.json (some "master") "Tag auto-generated by Twit.", time := 2,
        parents := [oidName 0], tree := [("a", "v1")] }
      wf_exMoved (by decide) (by decide) (by decide) (by decide)⟩

/-- C8 counterexample: a commit planted in the snapshot namespace whose
message `"42"` is valid JSON but not a metadata object.  It is not
parseable snapshot metadata, yet `open_snapshot` does not answer with
`InvalidSnapshot`: `json.loads` succeeds and `sinfo.get` dies with an
untyped `AttributeError`, outside the `TwitError` taxonomy — refuting the
original claim's "exactly when". -/
theorem C8_counterexample :
    WF exForeign ∧
    dirty exForeign = false ∧
    rev_parse exForeign (snapName 1) = some (oidName 0) ∧
    (snapshot_commits exForeign).contains (some (oidName 0)) = true ∧
    (exForeign.objects.lookup (oidName 0)).map Commit.message = some (Msg.jsonOther "42") ∧
    (open_snapshot (snapName 1) exForeign).1 =
      Except.error (Err.attributeError "json value has no attribute get") ∧
    Err.isTwitError (Err.attributeError "json value has no attribute get") = false :=
  ⟨wf_exForeign, by decide, by decide, by decide, by decide, by decide, by decide⟩

/-! ## The successful restore walk -/

theorem lookup_isSome_key_shape {r : Repo} {s : String} (hwf : WF r)
    (h : (r.objects.lookup s).isSome = true) : ∃ n, s = oidName n := by
  rw [List.lookup_isSome_iff] at h
  obtain ⟨p, hp, he⟩ := h
  obtain ⟨n, _, hn⟩ := hwf.objIdx p hp
  exact ⟨n, by rw [beq_iff_eq.mp he, hn]⟩

theorem oid_ne_HEAD {r : Repo} {s : String} (hwf : WF r)
    (h : (r.objects.lookup s).isSome = true) : s ≠ "HEAD" := by
  obtain ⟨n, rfl⟩ := lookup_isSome_key_shape hwf h
  exact ne_of_hd (by rw [oidName_hd]; decide)

/-- The synthetic placeholder branch names are sane branch names. -/
theorem branchOk_synth (x : String) : BranchOk ("twit/snapshot/unborn" ++ x) := by
  refine ⟨?_, ?_, ?_, ?_, ?_⟩
  · intro h
    have hd := congrArg String.data h
    rw [String.data_append] at hd
    exact absurd (hd ▸ List.prefix_append _ _ :
      "twit/snapshot/unborn".data <+: "HEAD".data) (by decide)
  · rw [String.data_append]
    exact not_pfx_of_app _ (by decide) (by decide)
  · rw [String.data_append]
    exact not_pfx_of_app _ (by decide) (by decide)
  · rw [String.data_append]
    exact not_pfx_of_app _ (by decide) (by decide)
  · rw [String.data_append]
    exact not_pfx_of_app _ (by decide) (by decide)

/-- An unrefused `git checkout` of a raw object id detaches (no branch is
named like an object id) and moves index and working tree to the two-way
merge with the target. -/
theorem gitCheckout_obj {r : Repo} {oid : String} (hwf : WF r)
    (hs : (r.objects.lookup oid).isSome = true)
    (hnc : ckConflict r (treeOfOid r oid) = false) :
    gitCheckout r oid = { r with head := Head.detached oid,
                                 index := ckMerge r (treeOfOid r oid),
                                 worktree := ckWT r (treeOfOid r oid) } := by
  unfold gitCheckout
  rw [rev_parse_obj hwf hs]
  dsimp only
  rw [if_neg (by rw [hnc]; decide)]
  obtain ⟨n, rfl⟩ := lookup_isSome_key_shape hwf hs
  rw [branch_oid_lookup_none hwf]
  rfl

/-- A refused checkout is a silent no-op (`_git` ignores the nonzero
exit). -/
theorem gitCheckout_conflict {r : Repo} {ref oid : String}
    (hrp : rev_parse r ref = some oid)
    (hc : ckConflict r (treeOfOid r oid) = true) :
    gitCheckout r ref = r := by
  unfold gitCheckout
  rw [hrp]
  dsimp only
  rw [if_pos hc]

/-- Whether it switches or is refused, `git checkout` never touches the
ref store. -/
theorem gitCheckout_refs (r : Repo) (ref : String) :
    (gitCheckout r ref).refs = r.refs := by
  unfold gitCheckout
  cases rev_parse r ref with
  | none => rfl
  | some oid =>
    dsimp only
    split
    · rfl
    · rfl

/-- `git checkout` never touches the object store. -/
theorem gitCheckout_objects (r : Repo) (ref : String) :
    (gitCheckout r ref).objects = r.objects := by
  unfold gitCheckout
  cases rev_parse r ref with
  | none => rfl
  | some oid =>
    dsimp only
    split
    · rfl
    · rfl

theorem safe_checkout_obj {r : Repo} {oid : String} (hwf : WF r)
    (hclean : dirty r = false) (hs : (r.objects.lookup oid).isSome = true) :
    safe_checkout oid r = (Except.ok (), gitCheckout r oid) := by
  unfold safe_checkout
  rw [if_neg (by rw [hclean]; decide), if_neg (by rw [rev_parse_obj hwf hs]; simp)]

/-! ## C9: restoring a snapshot of an unborn branch -/

/-- C9: opening a parentless snapshot (captured on an unborn branch) points
HEAD at the synthetic placeholder branch derived from the snapshot's
timestamp and clears the index to empty; HEAD is then force-pointed back at
the original branch exactly when that branch still has no commits, so a
branch that has since gained history is never re-attached. -/
theorem C9_unborn_restore (r : Repo) (ref oid B note : String) (c : Commit)
    (hwf : WF r) (hclean : dirty r = false)
    (hres : rev_parse r ref = some oid)
    (hmem : (snapshot_commits r).contains (some oid) = true)
    (hobj : r.objects.lookup oid = some c)
    (hpar : c.parents = [])
    (hmsg : c.message = Msg.json (some B) note)
    (hbok : BranchOk B)
    (hsynth : r.refs.lookup ("refs/heads/" ++ ("twit/snapshot/unborn" ++ Nat.repr c.time)) =
      none) :
    (open_snapshot ref r).1 = Except.ok () ∧
    (open_snapshot ref r).2.index = [] ∧
    (open_snapshot ref r).2.head =
      (if (r.refs.lookup ("refs/heads/" ++ B)).isSome
       then Head.branch ("twit/snapshot/unborn" ++ Nat.repr c.time)
       else Head.branch B) := by
  have hinfo : commit_info oid r = (Except.ok c, r) := by
    unfold commit_info
    rw [rev_parse_obj hwf (by rw [hobj]; rfl)]
    dsimp only
    rw [hobj]
  have hsome : (r.objects.lookup oid).isSome = true := by rw [hobj]; rfl
  unfold open_snapshot
  rw [if_neg (by rw [hclean]; decide), hres]
  dsimp only
  rw [if_neg (by rw [hmem]; decide), hinfo]
  dsimp only
  rw [if_neg (by rw [hpar]; decide), hmsg]
  dsimp only
  rw [hpar, List.head?_nil]
  dsimp only
  rw [safe_checkout_obj hwf hclean hsome]
  dsimp only
  rw [set_head_forced]
  dsimp only
  -- the record after the forced head set; whether the checkout switched or
  -- was silently refused, objects and refs are untouched
  have hus : unstage_all
      { gitCheckout r oid with
        head := Head.branch ("twit/snapshot/unborn" ++ Nat.repr c.time) } =
      { gitCheckout r oid with
        head := Head.branch ("twit/snapshot/unborn" ++ Nat.repr c.time), index := [] } := by
    unfold unstage_all resolveHead
    dsimp only
    rw [gitCheckout_refs, hsynth]
  rw [hus]
  unfold reattach
  dsimp only
  have hrp : rev_parse
      { gitCheckout r oid with
        head := Head.branch ("twit/snapshot/unborn" ++ Nat.repr c.time),
        index := ([] : Tree) } B = r.refs.lookup ("refs/heads/" ++ B) := by
    rw [rev_parse_congr (r := r) (by rw [gitCheckout_objects]) (by rw [gitCheckout_refs])
      hbok.neHEAD]
    exact rev_parse_branch hwf hbok
  rw [hrp]
  cases hL : r.refs.lookup ("refs/heads/" ++ B) with
  | none =>
    rw [if_pos rfl, set_head_forced]
    exact ⟨rfl, rfl, rfl⟩
  | some o =>
    rw [if_neg (by simp)]
    exact ⟨rfl, rfl, rfl⟩

theorem C9_unborn_restore_witness :
    (open_snapshot (snapName 1) exUnborn).1 = Except.ok () ∧
    (open_snapshot (snapName 1) exUnborn).2.index = [] ∧
    (open_snapshot (snapName 1) exUnborn).2.head =
      (if (exUnborn.refs.lookup ("refs/heads/" ++ "master")).isSome
       then Head.branch ("twit/snapshot/unborn" ++ Nat.repr 5)
       else Head.branch "master") :=
  C9_unborn_restore exUnborn (snapName 1) (oidName 0) "master"
    "Tag auto-generated by Twit."
    { message := Msg.json (some "master") "Tag auto-generated by Twit.", time := 5,
      parents := [], tree := [("b", "x")] }
    wf_exUnborn (by decide) (by decide) (by decide) (by decide) rfl rfl
    branchOk_master (by decide)

/-! ## C1: the branch-reattachment policy -/

/-- C1 (amended): for a snapshot taken while HEAD was attached to branch
`B` at commit `C` (single parent `C`), opening the snapshot on a clean
tree — provided no staged change collides with the snapshot's tree, so
that git does not refuse the checkout; in particular whenever the index
equals HEAD's tree — succeeds, never repoints any ref (`B`'s included);
when `B` no longer resolves to `C` it leaves HEAD detached at the restored
base `C`, and HEAD ends attached to `B` (plain, non-forced head set)
exactly when `B`'s tip still equals `C`.  (Without the no-collision
proviso the policy fails: a staged change passes the `dirty` check, the
checkout is silently refused, and `git reset --mixed` then repoints `B`
itself — see the counterexample.) -/
theorem C1_branch_reattach (r : Repo) (ref oid C B note : String) (c : Commit)
    (hwf : WF r) (hclean : dirty r = false)
    (hres : rev_parse r ref = some oid)
    (hmem : (snapshot_commits r).contains (some oid) = true)
    (hobj : r.objects.lookup oid = some c)
    (hpar : c.parents = [C])
    (hmsg : c.message = Msg.json (some B) note)
    (hbok : BranchOk B)
    (hnc : ckConflict r (treeOfOid r oid) = false) :
    (open_snapshot ref r).1 = Except.ok () ∧
    (open_snapshot ref r).2.refs = r.refs ∧
    (rev_parse r B ≠ some C → (open_snapshot ref r).2.head = Head.detached C) ∧
    ((open_snapshot ref r).2.head = Head.branch B ↔ rev_parse r B = some C) := by
  have hinfo : commit_info oid r = (Except.ok c, r) := by
    unfold commit_info
    rw [rev_parse_obj hwf (by rw [hobj]; rfl)]
    dsimp only
    rw [hobj]
  have hsome : (r.objects.lookup oid).isSome = true := by rw [hobj]; rfl
  have hg := gitCheckout_obj hwf hsome hnc
  have hCstored : (r.objects.lookup C).isSome = true := by
    have hmemc := lookup_mem hobj
    exact hwf.parentsStored (oid, c) hmemc C (by rw [hpar]; simp)
  have hCne : C ≠ "HEAD" := oid_ne_HEAD hwf hCstored
  have hrpC : rev_parse (gitCheckout r oid) C = some C := by
    rw [rev_parse_congr (r := r) (by rw [hg]) (by rw [hg]) hCne]
    exact rev_parse_obj hwf hCstored
  have hreset : reset C "mixed" (gitCheckout r oid) =
      (Except.ok (),
        { gitCheckout r oid with
            head := Head.detached C, index := treeOfOid (gitCheckout r oid) C }) := by
    unfold reset
    rw [if_neg (by decide), if_neg (by rw [hrpC]; simp),
      if_neg (by rw [hg]; simp [resolveHead])]
    unfold gitReset
    rw [hrpC]
    dsimp only
    rw [hg]
    dsimp only
    rw [if_neg (by decide), if_pos rfl]
  have hB : rev_parse r B = r.refs.lookup ("refs/heads/" ++ B) :=
    rev_parse_branch hwf hbok
  unfold open_snapshot
  rw [if_neg (by rw [hclean]; decide), hres]
  dsimp only
  rw [if_neg (by rw [hmem]; decide), hinfo]
  dsimp only
  rw [if_neg (by rw [hpar]; simp), hmsg]
  dsimp only
  rw [hpar, List.head?_cons]
  dsimp only
  rw [safe_checkout_obj hwf hclean hsome]
  dsimp only
  rw [hreset]
  dsimp only
  unfold reattach
  dsimp only
  have hrpB : rev_parse
      { gitCheckout r oid with
          head := Head.detached C, index := treeOfOid (gitCheckout r oid) C } B =
      r.refs.lookup ("refs/heads/" ++ B) := by
    rw [rev_parse_congr (r := r) (by rw [hg]) (by rw [hg]) hbok.neHEAD]
    exact hB
  rw [hrpB]
  by_cases hL : r.refs.lookup ("refs/heads/" ++ B) = some C
  · rw [if_pos hL]
    have hsh : set_head B false
        { gitCheckout r oid with
            head := Head.detached C, index := treeOfOid (gitCheckout r oid) C } =
        (Except.ok (),
          { gitCheckout r oid with
              head := Head.branch B, index := treeOfOid (gitCheckout r oid) C }) := by
      simp only [set_head]
      rw [if_neg]
      intro hcond
      rw [rev_parse_congr (r := r) (by rw [hg]) (by rw [hg])
        (ne_of_hd (by rw [headsApp_hd]; decide)),
        rev_parse_headsref_some hwf hL] at hcond
      simp at hcond
    rw [hsh]
    refine ⟨rfl, by rw [hg], ?_, ?_⟩
    · intro hne
      exact absurd (by rw [hB]; exact hL) hne
    · exact iff_of_true rfl (by rw [hB]; exact hL)
  · rw [if_neg hL]
    refine ⟨rfl, by rw [hg], ?_, ?_⟩
    · intro _
      rfl
    · refine iff_of_false ?_ (by rw [hB]; exact hL)
      intro h
      exact Head.noConfusion h

theorem C1_branch_reattach_witness :
    (open_snapshot (snapName 1) exMoved).1 = Except.ok () ∧
    (open_snapshot (snapName 1) exMoved).2.refs = exMoved.refs ∧
    (rev_parse exMoved "master" ≠ some (oidName 0) →
      (open_snapshot (snapName 1) exMoved).2.head = Head.detached (oidName 0)) ∧
    ((open_snapshot (snapName 1) exMoved).2.head = Head.branch "master" ↔
      rev_parse exMoved "master" = some (oidName 0)) :=
  C1_branch_reattach exMoved (snapName 1) (oidName 2) (oidName 0) "master"
    "Tag auto-generated by Twit."
    { message := Msg.json (some "master") "Tag auto-generated by Twit.", time := 2,
      parents := [oidName 0], tree := [("a", "v1")] }
    wf_exMoved (by decide) (by decide) (by decide) (by decide) rfl rfl branchOk_master
    (by decide)

/-- C1 counterexample: on `exC1` the open is inside the original claim's
domain — clean per `dirty`, snapshot with single parent `C = oidName 0`,
`B`'s tip `oidName 1 ≠ C` — yet a staged change makes git silently refuse
the checkout, HEAD stays attached to `B`, and the `git reset --mixed` that
follows repoints `B` itself to the snapshot's parent: the call succeeds
with `B` moved and HEAD still attached, contradicting both the
"never repoints the ref of B" and the "leaves HEAD detached" clauses. -/
theorem C1_counterexample :
    WF exC1 ∧
    dirty exC1 = false ∧
    (snapshot_commits exC1).contains (some (oidName 2)) = true ∧
    rev_parse exC1 "B" ≠ some (oidName 0) ∧
    (open_snapshot (snapName 1) exC1).1 = Except.ok () ∧
    (open_snapshot (snapName 1) exC1).2.refs.lookup "refs/heads/B" = some (oidName 0) ∧
    (open_snapshot (snapName 1) exC1).2.head = Head.branch "B" :=
  ⟨wf_exC1, by decide, by decide, by decide, by decide, by decide, by decide⟩

/-! ## Lookup through filters, and operations that leave the working tree
alone -/

theorem filter_lookup_of_key {β} {l : List (String × β)} {f : String × β → Bool}
    {p : String} (h : ∀ v, f (p, v) = true) : (l.filter f).lookup p = l.lookup p := by
  induction l with
  | nil => rfl
  | cons kv t ih =>
    obtain ⟨a, b⟩ := kv
    by_cases hap : p = a
    · subst hap
      rw [List.filter_cons, if_pos (h b), List.lookup_cons_self, List.lookup_cons_self]
    · rw [List.filter_cons]
      by_cases hf : f (a, b) = true
      · rw [if_pos hf, lookup_cons_ne hap, lookup_cons_ne hap, ih]
      · rw [if_neg hf, lookup_cons_ne hap, ih]

theorem filter_lookup_none {β} {l : List (String × β)} {f : String × β → Bool}
    {p : String} (h : l.lookup p = none) : (l.filter f).lookup p = none :=
  (List.filter_sublist l).lookup_eq_none h

theorem filter_lookup_of_key_false {β} {l : List (String × β)} {f : String × β → Bool}
    {p : String} (h : ∀ v, f (p, v) = false) : (l.filter f).lookup p = none := by
  induction l with
  | nil => rfl
  | cons kv t ih =>
    obtain ⟨a, b⟩ := kv
    by_cases hap : p = a
    · subst hap
      rw [List.filter_cons, if_neg (by rw [h b]; decide)]
      exact ih
    · rw [List.filter_cons]
      by_cases hf : f (a, b) = true
      · rw [if_pos hf, lookup_cons_ne hap]
        exact ih
      · rw [if_neg hf]
        exact ih

theorem filter_ext {α} {p q : α → Bool} (l : List α) (h : ∀ x ∈ l, p x = q x) :
    l.filter p = l.filter q := by
  induction l with
  | nil => rfl
  | cons a t ih =>
    rw [List.filter_cons, List.filter_cons, h a (by simp),
      ih fun x hx => h x (List.mem_cons_of_mem a hx)]

/-! ## The two-way merge of an unrefused checkout, by lookup -/

theorem ckMerge_lookup (r : Repo) (t : Tree) (p : String) :
    (ckMerge r t).lookup p =
      if t.lookup p == (headTree r).lookup p then r.index.lookup p
      else t.lookup p := by
  unfold ckMerge
  rw [List.lookup_append]
  by_cases hc : (t.lookup p == (headTree r).lookup p) = true
  · rw [if_pos hc]
    have h1 : ((t.filter fun kv =>
        !(t.lookup kv.1 == (headTree r).lookup kv.1)).lookup p) = none :=
      filter_lookup_of_key_false fun v => by
        show (!(t.lookup p == (headTree r).lookup p)) = false
        rw [hc]
        rfl
    have h2 : ((r.index.filter fun kv =>
        t.lookup kv.1 == (headTree r).lookup kv.1).lookup p) = r.index.lookup p :=
      filter_lookup_of_key fun v => hc
    rw [h1, h2, Option.none_or]
  · rw [if_neg hc]
    have hcf : (t.lookup p == (headTree r).lookup p) = false := Bool.eq_false_iff.mpr hc
    have h1 : ((t.filter fun kv =>
        !(t.lookup kv.1 == (headTree r).lookup kv.1)).lookup p) = t.lookup p :=
      filter_lookup_of_key fun v => by
        show (!(t.lookup p == (headTree r).lookup p)) = true
        rw [hcf]
        rfl
    have h2 : ((r.index.filter fun kv =>
        t.lookup kv.1 == (headTree r).lookup kv.1).lookup p) = none :=
      filter_lookup_of_key_false fun v => hcf
    rw [h1, h2, Option.or_none]

/-- With the index equal to HEAD's tree no path can conflict: the checkout
is never refused. -/
theorem ckConflict_of_idx {r : Repo} (h : r.index = headTree r) (t : Tree) :
    ckConflict r t = false := by
  unfold ckConflict
  rw [List.any_eq_false]
  intro kv hkv
  rw [h]
  simp

/-- With the index equal to HEAD's tree the two-way merge degenerates to
the target tree. -/
theorem ckMerge_lookup_of_idx {r : Repo} (h : r.index = headTree r) (t : Tree)
    (p : String) : (ckMerge r t).lookup p = t.lookup p := by
  rw [ckMerge_lookup]
  by_cases hc : (t.lookup p == (headTree r).lookup p) = true
  · rw [if_pos hc, h]
    exact (beq_iff_eq.mp hc).symm
  · rw [if_neg hc]

theorem ckWT_lookup_of_idx {r : Repo} (h : r.index = headTree r) (t : Tree)
    (p : String) : (ckWT r t).lookup p = (checkoutWT r t).lookup p := by
  unfold ckWT checkoutWT
  rw [List.lookup_append, List.lookup_append, ckMerge_lookup_of_idx h]
  have hf : (r.worktree.filter fun kv =>
      (r.index.lookup kv.1).isNone && ((ckMerge r t).lookup kv.1).isNone) =
      r.worktree.filter fun kv =>
      (r.index.lookup kv.1).isNone && (t.lookup kv.1).isNone := by
    apply filter_ext
    intro kv hkv
    show ((r.index.lookup kv.1).isNone && ((ckMerge r t).lookup kv.1).isNone) =
      ((r.index.lookup kv.1).isNone && (t.lookup kv.1).isNone)
    rw [ckMerge_lookup_of_idx h]
  rw [hf]

theorem resolveHead_saved (r : Repo) : resolveHead (savedRepo r) = resolveHead r := by
  unfold resolveHead
  rw [show (savedRepo r).head = r.head from rfl,
    show (savedRepo r).refs = (snapName (freeSnapIndex r), freshOid r) :: r.refs from rfl]
  cases r.head with
  | branch b => exact lookup_cons_ne (headsApp_ne_snapName b _)
  | detached o => rfl

/-- After `save` the index is exactly HEAD's tree, so the subsequent
checkout of the snapshot cannot be refused. -/
theorem savedRepo_idx {r : Repo} (hwf : WF r) :
    (savedRepo r).index = headTree (savedRepo r) := by
  show headTree r = headTree (savedRepo r)
  unfold headTree
  rw [resolveHead_saved]
  cases hres : resolveHead r with
  | none => rfl
  | some h =>
    dsimp only
    have hst := head_lookup_isSome hwf hres
    have hne : h ≠ freshOid r := by
      intro he
      rw [he, fresh_lookup_none hwf] at hst
      simp at hst
    unfold treeOfOid
    rw [show (savedRepo r).objects = (freshOid r, snapCommit r) :: r.objects from rfl,
      lookup_cons_ne hne]

theorem set_head_wt (b : String) (f : Bool) (r : Repo) :
    (set_head b f r).2.worktree = r.worktree := by
  simp only [set_head]
  split <;> rfl

theorem unstage_wt (r : Repo) : (unstage_all r).worktree = r.worktree := by
  unfold unstage_all
  cases resolveHead r <;> rfl

theorem reattach_wt (br p : Option String) (r : Repo) :
    (reattach br p r).2.worktree = r.worktree := by
  unfold reattach
  cases br with
  | none => rfl
  | some b =>
    cases p with
    | none =>
      dsimp only
      split
      · exact set_head_wt b true r
      · rfl
    | some q =>
      dsimp only
      split
      · exact set_head_wt b false r
      · rfl

/-! ## `save` preserves well-formedness -/

theorem wf_saved {r : Repo} (hwf : WF r) : WF (savedRepo r) := by
  have hobjs : (savedRepo r).objects = (freshOid r, snapCommit r) :: r.objects := rfl
  have hrefs : (savedRepo r).refs =
    (snapName (freeSnapIndex r), freshOid r) :: r.refs := rfl
  refine ⟨?_, ?_, ?_, ?_, ?_, ?_, ?_⟩
  · intro kv hkv
    rw [hobjs] at hkv
    rw [hobjs, List.length_cons]
    rcases List.mem_cons.mp hkv with he | hm
    · exact ⟨r.objects.length, by rw [List.mem_range]; omega, by rw [he]; rfl⟩
    · obtain ⟨n, hn, he⟩ := hwf.objIdx kv hm
      rw [List.mem_range] at hn
      exact ⟨n, by rw [List.mem_range]; omega, he⟩
  · intro kv hkv
    rw [hrefs] at hkv
    rcases List.mem_cons.mp hkv with he | hm
    · right
      rw [he]
      dsimp only
      rw [snapName_data]
      exact List.prefix_append _ _
    · exact hwf.refKeys kv hm
  · intro kv hkv
    rw [hrefs] at hkv
    rw [hobjs]
    rcases List.mem_cons.mp hkv with he | hm
    · rw [he]
      dsimp only
      rw [List.lookup_cons_self]
      rfl
    · exact lookup_cons_isSome (hwf.refVals kv hm)
  · intro kv hkv pp hpp
    rw [hobjs] at hkv
    rw [hobjs]
    rcases List.mem_cons.mp hkv with he | hm
    · rw [he] at hpp
      dsimp only [snapCommit] at hpp
      cases hres : resolveHead r with
      | none => rw [hres] at hpp; simp at hpp
      | some h =>
        rw [hres] at hpp
        simp only [Option.toList_some, List.mem_singleton] at hpp
        subst hpp
        exact lookup_cons_isSome (head_lookup_isSome hwf hres)
    · exact lookup_cons_isSome (hwf.parentsStored kv hm pp hpp)
  · intro kv hkv
    rw [hrefs] at hkv
    rcases List.mem_cons.mp hkv with he | hm
    · rw [he]
      dsimp only
      rw [snapName_data]
      exact not_pfx_of_app _ (by decide) (by decide)
    · exact hwf.noOidBranch kv hm
  · intro b hb
    exact hwf.headBranch b hb
  · intro o ho
    rw [hobjs]
    exact lookup_cons_isSome (hwf.headStored o ho)

/-! ## C2: the save/open round trip -/

theorem stagedTree_lookup_not_ignored {r : Repo} {p : String} (hp : p ∉ r.ignored) :
    (stagedTree r).lookup p = r.worktree.lookup p := by
  unfold stagedTree
  apply filter_lookup_of_key
  intro v
  have hc : r.ignored.contains p = false := by
    cases hc : r.ignored.contains p
    · rfl
    · exact absurd (List.mem_of_elem_eq_true hc) hp
  rw [hc]
  rfl

/-- C2 (amended): `save()` followed immediately by `open` of the returned
ref leaves every non-ignored path of the working tree (untracked files
included) byte-identical to its content before `save()` — whether the
reopen runs to completion or stops at a guard.  (An ignored file whose
deletion was staged at save time is the lone exception, see the
counterexample; the index's staged/unstaged split is not preserved, see
C6.) -/
theorem C2_roundtrip (r : Repo) (hwf : WF r) (p : String) (hp : p ∉ r.ignored) :
    ((open' (refOf (save r).1) (save r).2).2).worktree.lookup p = r.worktree.lookup p := by
  have href : refOf (save r).1 = snapName (freeSnapIndex r) := by
    rw [save_fst]
    rfl
  rw [href, save_snd r hwf]
  have hwf1 : WF (savedRepo r) := wf_saved hwf
  have hidx1 : (savedRepo r).index = headTree (savedRepo r) := savedRepo_idx hwf
  have hrefs1 : (savedRepo r).refs =
    (snapName (freeSnapIndex r), freshOid r) :: r.refs := rfl
  have hwt1 : (savedRepo r).worktree = r.worktree := rfl
  by_cases hdirty : dirty (savedRepo r) = true
  · unfold open'
    rw [if_pos hdirty]
    rfl
  · have hdirty' : dirty (savedRepo r) = false := by
      rw [Bool.eq_false_iff]
      exact hdirty
    have hlk : (savedRepo r).refs.lookup (snapName (freeSnapIndex r)) =
        some (freshOid r) := by
      rw [hrefs1]
      exact List.lookup_cons_self
    have hrp1 : rev_parse (savedRepo r) (snapName (freeSnapIndex r)) = some (freshOid r) :=
      rev_parse_snapref_some hwf1 hlk
    have hobj1 : (savedRepo r).objects.lookup (freshOid r) = some (snapCommit r) := by
      rw [show (savedRepo r).objects = (freshOid r, snapCommit r) :: r.objects from rfl]
      exact List.lookup_cons_self
    have hsome1 : ((savedRepo r).objects.lookup (freshOid r)).isSome = true := by
      rw [hobj1]
      rfl
    have hsnapmem : (snapshot_commits (savedRepo r)).contains (some (freshOid r)) = true := by
      have hmem1 : snapName (freeSnapIndex r) ∈ snapshots (savedRepo r) := by
        unfold snapshots refsList
        rw [List.mem_filter]
        refine ⟨?_, ?_⟩
        · rw [hrefs1]
          simp
        · rw [ List.isPrefixOf_iff_prefix, snapName_data]
          exact List.prefix_append _ _
      exact List.elem_eq_true_of_mem
        (List.mem_map.mpr ⟨snapName (freeSnapIndex r), hmem1, hrp1⟩)
    have hinfo1 : commit_info (freshOid r) (savedRepo r) =
        (Except.ok (snapCommit r), savedRepo r) := by
      unfold commit_info
      rw [rev_parse_obj hwf1 hsome1]
      dsimp only
      rw [hobj1]
    have hg := gitCheckout_obj hwf1 hsome1 (ckConflict_of_idx hidx1 _)
    have ht : treeOfOid (savedRepo r) (freshOid r) = stagedTree r := by
      unfold treeOfOid
      rw [hobj1]
      rfl
    have hcore : (checkoutWT (savedRepo r) (stagedTree r)).lookup p =
        r.worktree.lookup p := by
      unfold checkoutWT
      rw [List.lookup_append, stagedTree_lookup_not_ignored hp]
      cases hwt : r.worktree.lookup p with
      | some v => rfl
      | none =>
        rw [filter_lookup_none (show (savedRepo r).worktree.lookup p = none from hwt)]
        rfl
    have hgwt : (gitCheckout (savedRepo r) (freshOid r)).worktree.lookup p =
        r.worktree.lookup p := by
      rw [hg]
      dsimp only
      rw [ckWT_lookup_of_idx hidx1, ht]
      exact hcore
    unfold open'
    rw [if_neg (by rw [hdirty']; decide), hrp1]
    dsimp only
    rw [if_pos hsnapmem]
    unfold open_snapshot
    rw [if_neg (by rw [hdirty']; decide), rev_parse_obj hwf1 hsome1]
    dsimp only
    rw [if_neg (by rw [hsnapmem]; decide), hinfo1]
    dsimp only
    cases hres : resolveHead r with
    | none =>
      have hpar : (snapCommit r).parents = [] := by
        unfold snapCommit
        dsimp only
        rw [hres]
        rfl
      rw [if_neg (by rw [hpar]; decide),
        show (snapCommit r).message = Msg.json (branchOf r) "Tag auto-generated by Twit."
          from rfl]
      dsimp only
      rw [hpar, List.head?_nil]
      dsimp only
      rw [safe_checkout_obj hwf1 hdirty' hsome1]
      dsimp only
      rw [set_head_forced]
      dsimp only
      rw [reattach_wt, unstage_wt]
      dsimp only
      exact hgwt
    | some h =>
      have hpar : (snapCommit r).parents = [h] := by
        unfold snapCommit
        dsimp only
        rw [hres]
        rfl
      rw [if_neg (by rw [hpar]; simp),
        show (snapCommit r).message = Msg.json (branchOf r) "Tag auto-generated by Twit."
          from rfl]
      dsimp only
      rw [hpar, List.head?_cons]
      dsimp only
      rw [safe_checkout_obj hwf1 hdirty' hsome1]
      dsimp only
      have hhstored : ((savedRepo r).objects.lookup h).isSome = true := by
        rw [show (savedRepo r).objects = (freshOid r, snapCommit r) :: r.objects from rfl]
        exact lookup_cons_isSome (head_lookup_isSome hwf hres)
      have hhne : h ≠ "HEAD" := oid_ne_HEAD hwf1 hhstored
      have hrph : rev_parse (gitCheckout (savedRepo r) (freshOid r)) h = some h := by
        rw [rev_parse_congr (r := savedRepo r) (by rw [hg]) (by rw [hg]) hhne]
        exact rev_parse_obj hwf1 hhstored
      have hreset : reset h "mixed" (gitCheckout (savedRepo r) (freshOid r)) =
          (Except.ok (),
            { gitCheckout (savedRepo r) (freshOid r) with
                head := Head.detached h,
                index := treeOfOid (gitCheckout (savedRepo r) (freshOid r)) h }) := by
        unfold reset
        rw [if_neg (by decide), if_neg (by rw [hrph]; simp),
          if_neg (by rw [hg]; simp [resolveHead])]
        unfold gitReset
        rw [hrph]
        dsimp only
        rw [hg]
        dsimp only
        rw [if_neg (by decide), if_pos rfl]
      rw [hreset]
      dsimp only
      rw [reattach_wt]
      dsimp only
      exact hgwt

theorem C2_roundtrip_witness :
    ((open' (refOf (save ex0).1) (save ex0).2).2).worktree.lookup "a" =
      ex0.worktree.lookup "a" :=
  C2_roundtrip ex0 wf_ex0 "a" (by decide)

/-- C2 counterexample: an ignored file `p`, tracked in HEAD but removed
from the index (a staged deletion), survives the code's dirtiness check,
is not captured by `save`, and is deleted from the working tree by the
reopen: the round trip loses its content. -/
theorem C2_counterexample :
    ((open' (refOf (save exIgnored).1) (save exIgnored).2).2).worktree.lookup "p" ≠
      exIgnored.worktree.lookup "p" := by
  decide

/-! ## C4 groundwork: more lookup helpers and a reopen lemma -/

theorem lookup_append_left {β} {l₁ l₂ : List (String × β)} {p : String}
    (h : (l₁.lookup p).isSome = true) : (l₁ ++ l₂).lookup p = l₁.lookup p := by
  rw [List.lookup_append]
  cases hc : l₁.lookup p with
  | some v => rfl
  | none => rw [hc] at h; simp at h

theorem mem_lookup_isSome {β} {l : List (String × β)} {kv : String × β}
    (h : kv ∈ l) : (l.lookup kv.1).isSome = true := by
  rw [List.lookup_isSome_iff]
  exact ⟨kv, h, by simp⟩

theorem dirty_of_deltas {r : Repo} (h1 : worktreeDelta r = false)
    (h2 : untrackedNew r = false) : dirty r = false := by
  unfold dirty dirtyOpt
  rw [h1, h2]
  cases indexDelta r <;> rfl

theorem idx_headTree_of_branch {R : Repo} {b h : String}
    (hh : R.head = Head.branch b)
    (hlk : R.refs.lookup ("refs/heads/" ++ b) = some h)
    (hidx : R.index = treeOfOid R h) :
    R.index = headTree R := by
  unfold headTree resolveHead
  rw [hh]
  dsimp only
  rw [hlk]
  exact hidx

theorem idx_headTree_of_detached {R : Repo} {h : String}
    (hh : R.head = Head.detached h)
    (hidx : R.index = treeOfOid R h) :
    R.index = headTree R := by
  unfold headTree resolveHead
  rw [hh]
  exact hidx

theorem WF.congr {x y : Repo} (hwf : WF y) (h1 : x.objects = y.objects)
    (h2 : x.refs = y.refs) (h3 : x.head = y.head) : WF x := by
  refine ⟨?_, ?_, ?_, ?_, ?_, ?_, ?_⟩
  · rw [h1]; exact hwf.objIdx
  · rw [h2]; exact hwf.refKeys
  · rw [h1, h2]; exact hwf.refVals
  · rw [h1]; exact hwf.parentsStored
  · rw [h2]; exact hwf.noOidBranch
  · rw [h3]; exact hwf.headBranch
  · rw [h1, h3]; exact hwf.headStored

/-- Reopening a stored single-parent snapshot from a clean state succeeds
and puts the snapshot tree (plus surviving untracked files) in the working
tree. -/
theorem reopen_spec (r2 : Repo) (k : Nat) (oid0 h : String) (c0 : Commit)
    (br0 : Option String) (note0 : String)
    (hwf2 : WF r2) (hd2 : dirty r2 = false)
    (hidxH : r2.index = headTree r2)
    (hlk : r2.refs.lookup (snapName k) = some oid0)
    (hobj : r2.objects.lookup oid0 = some c0)
    (hmsg : c0.message = Msg.json br0 note0)
    (hpar : c0.parents = [h])
    (hbr : ∀ b, br0 = some b → BranchOk b ∧ r2.refs.lookup ("refs/heads/" ++ b) = some h) :
    (open' (snapName k) r2).1 = Except.ok () ∧
    (open' (snapName k) r2).2.worktree = ckWT r2 (treeOfOid r2 oid0) := by
  have hrp1 : rev_parse r2 (snapName k) = some oid0 := rev_parse_snapref_some hwf2 hlk
  have hsome1 : (r2.objects.lookup oid0).isSome = true := by rw [hobj]; rfl
  have hsnapmem : (snapshot_commits r2).contains (some oid0) = true := by
    have hmem1 : snapName k ∈ snapshots r2 := by
      unfold snapshots refsList
      rw [List.mem_filter]
      refine ⟨?_, ?_⟩
      · exact List.mem_map.mpr ⟨(snapName k, oid0), lookup_mem hlk, rfl⟩
      · rw [ List.isPrefixOf_iff_prefix, snapName_data]
        exact List.prefix_append _ _
    exact List.elem_eq_true_of_mem (List.mem_map.mpr ⟨snapName k, hmem1, hrp1⟩)
  have hinfo1 : commit_info oid0 r2 = (Except.ok c0, r2) := by
    unfold commit_info
    rw [rev_parse_obj hwf2 hsome1]
    dsimp only
    rw [hobj]
  have hg := gitCheckout_obj hwf2 hsome1 (ckConflict_of_idx hidxH _)
  have hhstored : (r2.objects.lookup h).isSome = true :=
    hwf2.parentsStored (oid0, c0) (lookup_mem hobj) h (by rw [hpar]; simp)
  have hhne : h ≠ "HEAD" := oid_ne_HEAD hwf2 hhstored
  have hrph : rev_parse (gitCheckout r2 oid0) h = some h := by
    rw [rev_parse_congr (r := r2) (by rw [hg]) (by rw [hg]) hhne]
    exact rev_parse_obj hwf2 hhstored
  have hreset : reset h "mixed" (gitCheckout r2 oid0) =
      (Except.ok (),
        { gitCheckout r2 oid0 with
            head := Head.detached h, index := treeOfOid (gitCheckout r2 oid0) h }) := by
    unfold reset
    rw [if_neg (by decide), if_neg (by rw [hrph]; simp),
      if_neg (by rw [hg]; simp [resolveHead])]
    unfold gitReset
    rw [hrph]
    dsimp only
    rw [hg]
    dsimp only
    rw [if_neg (by decide), if_pos rfl]
  unfold open'
  rw [if_neg (by rw [hd2]; decide), hrp1]
  dsimp only
  rw [if_pos hsnapmem]
  unfold open_snapshot
  rw [if_neg (by rw [hd2]; decide), rev_parse_obj hwf2 hsome1]
  dsimp only
  rw [if_neg (by rw [hsnapmem]; decide), hinfo1]
  dsimp only
  rw [if_neg (by rw [hpar]; simp), hmsg]
  dsimp only
  rw [hpar, List.head?_cons]
  dsimp only
  rw [safe_checkout_obj hwf2 hd2 hsome1]
  dsimp only
  rw [hreset]
  dsimp only
  unfold reattach
  cases br0 with
  | none =>
    dsimp only
    exact ⟨rfl, by rw [hg]⟩
  | some b =>
    obtain ⟨hbokb, htip⟩ := hbr b rfl
    dsimp only
    have hrpb : rev_parse
        { gitCheckout r2 oid0 with
            head := Head.detached h, index := treeOfOid (gitCheckout r2 oid0) h } b =
        some h := by
      rw [rev_parse_congr (r := r2) (by rw [hg]) (by rw [hg]) hbokb.neHEAD,
        rev_parse_branch hwf2 hbokb]
      exact htip
    rw [hrpb, if_pos rfl]
    have hrphb : rev_parse
        { gitCheckout r2 oid0 with
            head := Head.detached h, index := treeOfOid (gitCheckout r2 oid0) h }
        ("refs/heads/" ++ b) = some h := by
      rw [rev_parse_congr (r := r2) (by rw [hg]) (by rw [hg])
        (ne_of_hd (by rw [headsApp_hd]; decide))]
      exact rev_parse_headsref_some hwf2 htip
    have hsh : set_head b false
        { gitCheckout r2 oid0 with
            head := Head.detached h, index := treeOfOid (gitCheckout r2 oid0) h } =
        (Except.ok (),
          { gitCheckout r2 oid0 with
              head := Head.branch b, index := treeOfOid (gitCheckout r2 oid0) h }) := by
      simp only [set_head]
      rw [hrphb]
      rw [if_neg (by simp)]
    rw [hsh]
    exact ⟨rfl, by rw [hg]⟩

/-- Core of the CLI-open recovery argument, parameterised by the state the
auto-save-and-discard step produces.  From a dirty, born state: the
`snapshot` local is always assigned, so the handler never hits the unbound
variable; and when opening the revision fails with `InvalidRef` without
mutating, reopening the auto-saved snapshot succeeds and restores every
non-ignored working-tree path. -/
theorem cli_open_recovery_core (r : Repo) (revision m h : String) (R2 : Repo)
    (hwf : WF r) (hdirty : dirty r = true) (hres : resolveHead r = some h)
    (hdisc : discard_all (savedRepo r) = (Except.ok (), R2))
    (hwf2 : WF R2)
    (hobjs2 : R2.objects = (freshOid r, snapCommit r) :: r.objects)
    (hign2 : R2.ignored = r.ignored)
    (hidx2 : R2.index = treeOfOid (stage_all (savedRepo r)) h)
    (hwt2 : R2.worktree =
      checkoutWT (stage_all (savedRepo r)) (treeOfOid (stage_all (savedRepo r)) h))
    (hidxH : R2.index = headTree R2)
    (hsnap2 : R2.refs.lookup (snapName (freeSnapIndex r)) = some (freshOid r))
    (hbr2 : ∀ b, branchOf r = some b → R2.refs.lookup ("refs/heads/" ++ b) = some h) :
    (cli_open revision r).1 ≠ Except.error CliErr.unboundLocal ∧
    (open' revision (discard_all (save r).2).2 =
        (Except.error (Err.invalidRef m), (discard_all (save r).2).2) →
      (cli_open revision r).1 = Except.ok () ∧
      ∀ p, p ∉ r.ignored →
        (cli_open revision r).2.worktree.lookup p = r.worktree.lookup p) := by
  have hsave : save r = (Except.ok (snapName (freeSnapIndex r)), savedRepo r) := by
    have h1 := save_fst r
    have h2 := save_snd r hwf
    cases hsv : save r with
    | mk a b =>
      rw [hsv] at h1 h2
      rw [← h1, ← h2]
  have hwd : worktreeDelta R2 = false := by
    unfold worktreeDelta
    rw [List.any_eq_false]
    intro kv hkv
    rw [hidx2] at hkv
    have hs : ((treeOfOid (stage_all (savedRepo r)) h).lookup kv.1).isSome = true :=
      mem_lookup_isSome hkv
    show ¬(!(R2.worktree.lookup kv.1 == R2.index.lookup kv.1)) = true
    rw [hwt2, hidx2]
    unfold checkoutWT
    rw [lookup_append_left hs]
    simp
  have hun : untrackedNew R2 = false := by
    unfold untrackedNew
    rw [List.any_eq_false]
    intro kv hkv
    show ¬((R2.index.lookup kv.1).isNone && !(R2.ignored.contains kv.1)) = true
    rw [hwt2] at hkv
    unfold checkoutWT at hkv
    rw [hidx2, hign2]
    rcases List.mem_append.mp hkv with hkT | hkF
    · have hs := mem_lookup_isSome hkT
      intro hc
      rw [Bool.and_eq_true] at hc
      have h1 := hc.1
      rw [Option.isNone_iff_eq_none] at h1
      rw [h1] at hs
      simp at hs
    · obtain ⟨hmemW, hpredT⟩ := List.mem_filter.mp hkF
      have hmemW' : kv ∈ r.worktree := hmemW
      have hpredT' :
          (((stage_all (savedRepo r)).index.lookup kv.1).isNone &&
            ((treeOfOid (stage_all (savedRepo r)) h).lookup kv.1).isNone) = true := hpredT
      rw [Bool.and_eq_true] at hpredT'
      obtain ⟨hInone, hTnone⟩ := hpredT'
      by_cases hcont : r.ignored.contains kv.1 = true
      · rw [hcont]
        simp
      · exfalso
        have hcf : r.ignored.contains kv.1 = false := Bool.eq_false_iff.mpr hcont
        have hfl : (stagedTree (savedRepo r)).lookup kv.1 = r.worktree.lookup kv.1 := by
          unfold stagedTree
          apply filter_lookup_of_key
          intro v
          show (!(r.ignored.contains kv.1) || ((savedRepo r).index.lookup kv.1).isSome) = true
          rw [hcf]
          simp
        have hIn : (stagedTree (savedRepo r)).lookup kv.1 = none := by
          have hx : ((stagedTree (savedRepo r)).lookup kv.1).isNone = true := hInone
          rw [Option.isNone_iff_eq_none] at hx
          exact hx
        rw [hfl] at hIn
        have hsW := mem_lookup_isSome hmemW'
        rw [hIn] at hsW
        simp at hsW
  have hd2 : dirty R2 = false := dirty_of_deltas hwd hun
  have hpar : (snapCommit r).parents = [h] := by
    show (resolveHead r).toList = [h]
    rw [hres]
    rfl
  have hobj : R2.objects.lookup (freshOid r) = some (snapCommit r) := by
    rw [hobjs2]
    exact List.lookup_cons_self
  have hheadb : ∀ b, branchOf r = some b → r.head = Head.branch b := by
    intro b hb
    unfold branchOf at hb
    cases hhd : r.head with
    | branch b0 =>
      rw [hhd] at hb
      dsimp only at hb
      injection hb with he
      rw [he]
    | detached o =>
      rw [hhd] at hb
      dsimp only at hb
      exact Option.noConfusion hb
  have hcore := reopen_spec R2 (freeSnapIndex r) (freshOid r) h (snapCommit r)
    (branchOf r) "Tag auto-generated by Twit." hwf2 hd2 hidxH hsnap2 hobj rfl hpar
    (fun b hb => ⟨hwf.headBranch b (hheadb b hb), hbr2 b hb⟩)
  have htree : treeOfOid R2 (freshOid r) = stagedTree r := by
    unfold treeOfOid
    rw [hobj]
    rfl
  have hwtfinal : ∀ p, p ∉ r.ignored →
      (ckWT R2 (treeOfOid R2 (freshOid r))).lookup p = r.worktree.lookup p := by
    intro p hp
    rw [ckWT_lookup_of_idx hidxH, htree]
    have hstl : (stagedTree r).lookup p = r.worktree.lookup p :=
      stagedTree_lookup_not_ignored hp
    unfold checkoutWT
    rw [List.lookup_append]
    cases hwp : r.worktree.lookup p with
    | some v =>
      rw [hstl, hwp]
      rfl
    | none =>
      rw [hstl, hwp, Option.none_or]
      cases hT : (treeOfOid (stage_all (savedRepo r)) h).lookup p with
      | some w =>
        apply filter_lookup_of_key_false
        intro v
        show ((R2.index.lookup p).isNone && ((stagedTree r).lookup p).isNone) = false
        rw [hidx2, hT]
        rfl
      | none =>
        apply filter_lookup_none
        rw [hwt2]
        unfold checkoutWT
        rw [List.lookup_append, hT, Option.none_or]
        exact filter_lookup_none hwp
  constructor
  · cases hop : open' revision R2 with
    | mk e1 rA =>
      cases e1 with
      | ok u =>
        unfold cli_open
        dsimp only
        rw [if_pos hdirty, hsave]
        dsimp only
        rw [hdisc]
        dsimp only
        rw [hop]
        dsimp only
        simp
      | error err =>
        cases err
        case invalidRef msg =>
          cases hop2 : open' (snapName (freeSnapIndex r)) rA with
          | mk e2 rB =>
            cases e2 with
            | ok u2 =>
              unfold cli_open
              dsimp only
              rw [if_pos hdirty, hsave]
              dsimp only
              rw [hdisc]
              dsimp only
              rw [hop]
              dsimp only
              rw [hop2]
              dsimp only
              simp
            | error e3 =>
              unfold cli_open
              dsimp only
              rw [if_pos hdirty, hsave]
              dsimp only
              rw [hdisc]
              dsimp only
              rw [hop]
              dsimp only
              rw [hop2]
              dsimp only
              simp
        all_goals
          unfold cli_open
          dsimp only
          rw [if_pos hdirty, hsave]
          dsimp only
          rw [hdisc]
          dsimp only
          rw [hop]
          dsimp only
          simp
  · intro hfail
    have h2 := save_snd r hwf
    rw [h2, hdisc] at hfail
    dsimp only at hfail
    have hsplit : open' (snapName (freeSnapIndex r)) R2 =
        (Except.ok (), (open' (snapName (freeSnapIndex r)) R2).2) := by
      cases hsp : open' (snapName (freeSnapIndex r)) R2 with
      | mk a b =>
        have hx := hcore.1
        rw [hsp] at hx
        dsimp only at hx
        rw [hx]
    unfold cli_open
    dsimp only
    rw [if_pos hdirty, hsave]
    dsimp only
    rw [hdisc]
    dsimp only
    rw [hfail]
    dsimp only
    rw [hsplit]
    dsimp only
    refine ⟨rfl, ?_⟩
    intro p hp
    have hwt := hcore.2
    rw [hwt]
    exact hwtfinal p hp

/-- C4 (amended): when the working tree is dirty at entry and HEAD resolves
to a commit, the CLI `open` command auto-saves a snapshot and discards the
changes, and the `except InvalidRef` handler never hits the unbound
`snapshot` variable; if opening the revision then fails with `InvalidRef`
leaving the state unchanged (as an unresolvable revision does), the command
recovers by reopening the auto-saved snapshot: it returns successfully and
every non-ignored working-tree path is restored byte-identically.  (The
original claim's clean-at-entry case instead dies with the untyped
`UnboundLocalError`; see the counterexample.) -/
theorem C4_cli_open_fallback (r : Repo) (revision m h : String)
    (hwf : WF r) (hdirty : dirty r = true) (hres : resolveHead r = some h) :
    (cli_open revision r).1 ≠ Except.error CliErr.unboundLocal ∧
    (open' revision (discard_all (save r).2).2 =
        (Except.error (Err.invalidRef m), (discard_all (save r).2).2) →
      (cli_open revision r).1 = Except.ok () ∧
      ∀ p, p ∉ r.ignored →
        (cli_open revision r).2.worktree.lookup p = r.worktree.lookup p) := by
  have hWFsaved := wf_saved hwf
  have hwfs1 : WF (stage_all (savedRepo r)) := WF.congr hWFsaved rfl rfl rfl
  have hstored_r : (r.objects.lookup h).isSome = true := head_lookup_isSome hwf hres
  have hstored_s1 : (((stage_all (savedRepo r)).objects.lookup h)).isSome = true :=
    lookup_cons_isSome hstored_r
  have hrp1 : rev_parse (stage_all (savedRepo r)) h = some h :=
    rev_parse_obj hwfs1 hstored_s1
  have hres1 : resolveHead (stage_all (savedRepo r)) = some h := by
    show resolveHead (savedRepo r) = some h
    rw [resolveHead_saved]
    exact hres
  cases hh : r.head with
  | branch b =>
    have hbok : BranchOk b := hwf.headBranch b hh
    have hdisc : discard_all (savedRepo r) = (Except.ok (),
        { r with
            objects := (freshOid r, snapCommit r) :: r.objects
            refs := ("refs/heads/" ++ b, h) ::
              (snapName (freeSnapIndex r), freshOid r) :: r.refs
            head := Head.branch b
            index := treeOfOid (stage_all (savedRepo r)) h
            worktree := checkoutWT (stage_all (savedRepo r))
              (treeOfOid (stage_all (savedRepo r)) h)
            clock := r.clock + 1 }) := by
      unfold discard_all
      dsimp only
      rw [hres1]
      dsimp only
      unfold gitReset
      rw [hrp1]
      dsimp only
      rw [show (stage_all (savedRepo r)).head = Head.branch b from hh]
      dsimp only
      rw [if_neg (by decide), if_neg (by decide)]
      rfl
    have hwf2 : WF { r with
        objects := (freshOid r, snapCommit r) :: r.objects
        refs := ("refs/heads/" ++ b, h) ::
          (snapName (freeSnapIndex r), freshOid r) :: r.refs
        head := Head.branch b
        index := treeOfOid (stage_all (savedRepo r)) h
        worktree := checkoutWT (stage_all (savedRepo r))
          (treeOfOid (stage_all (savedRepo r)) h)
        clock := r.clock + 1 } := by
      refine ⟨?_, ?_, ?_, ?_, ?_, ?_, ?_⟩
      · exact hWFsaved.objIdx
      · intro kv hkv
        rcases List.mem_cons.mp hkv with he | ht
        · rw [he]
          left
          rw [headsApp_data]
          exact List.prefix_append _ _
        · exact hWFsaved.refKeys kv ht
      · intro kv hkv
        rcases List.mem_cons.mp hkv with he | ht
        · rw [he]
          exact lookup_cons_isSome hstored_r
        · exact hWFsaved.refVals kv ht
      · exact hWFsaved.parentsStored
      · intro kv hkv
        rcases List.mem_cons.mp hkv with he | ht
        · rw [he]
          intro hpfx
          have hsplit : ("refs/heads/oid").data = "refs/heads/".data ++ "oid".data := by
            decide
          rw [hsplit, headsApp_data] at hpfx
          exact hbok.notOidName (pfx_cancel hpfx)
        · exact hWFsaved.noOidBranch kv ht
      · intro b' hb'
        have hx : Head.branch b = Head.branch b' := hb'
        injection hx with he
        rw [← he]
        exact hbok
      · intro o ho
        exact Head.noConfusion (show Head.branch b = Head.detached o from ho)
    refine cli_open_recovery_core r revision m h _ hwf hdirty hres hdisc hwf2
      rfl rfl rfl rfl ?_ ?_ ?_
    · exact idx_headTree_of_branch rfl List.lookup_cons_self rfl
    · show ((("refs/heads/" ++ b, h) ::
          (snapName (freeSnapIndex r), freshOid r) :: r.refs).lookup
            (snapName (freeSnapIndex r))) = some (freshOid r)
      rw [lookup_cons_ne (Ne.symm (headsApp_ne_snapName b (freeSnapIndex r)))]
      exact List.lookup_cons_self
    · intro b' hb'
      have hx : b = b' := by
        unfold branchOf at hb'
        rw [hh] at hb'
        dsimp only at hb'
        injection hb'
      rw [← hx]
      exact List.lookup_cons_self
  | detached o =>
    have ho : o = h := by
      unfold resolveHead at hres
      rw [hh] at hres
      dsimp only at hres
      injection hres
    subst ho
    have hdisc : discard_all (savedRepo r) = (Except.ok (),
        { r with
            objects := (freshOid r, snapCommit r) :: r.objects
            refs := (snapName (freeSnapIndex r), freshOid r) :: r.refs
            head := Head.detached o
            index := treeOfOid (stage_all (savedRepo r)) o
            worktree := checkoutWT (stage_all (savedRepo r))
              (treeOfOid (stage_all (savedRepo r)) o)
            clock := r.clock + 1 }) := by
      unfold discard_all
      dsimp only
      rw [hres1]
      dsimp only
      unfold gitReset
      rw [hrp1]
      dsimp only
      rw [show (stage_all (savedRepo r)).head = Head.detached o from hh]
      dsimp only
      rw [if_neg (by decide), if_neg (by decide)]
      rfl
    have hwf2 : WF { r with
        objects := (freshOid r, snapCommit r) :: r.objects
        refs := (snapName (freeSnapIndex r), freshOid r) :: r.refs
        head := Head.detached o
        index := treeOfOid (stage_all (savedRepo r)) o
        worktree := checkoutWT (stage_all (savedRepo r))
          (treeOfOid (stage_all (savedRepo r)) o)
        clock := r.clock + 1 } := by
      refine ⟨?_, ?_, ?_, ?_, ?_, ?_, ?_⟩
      · exact hWFsaved.objIdx
      · exact hWFsaved.refKeys
      · exact hWFsaved.refVals
      · exact hWFsaved.parentsStored
      · exact hWFsaved.noOidBranch
      · intro b' hb'
        exact Head.noConfusion hb'
      · intro o' ho'
        have hx : Head.detached o = Head.detached o' := ho'
        injection hx with he
        rw [← he]
        exact lookup_cons_isSome hstored_r
    refine cli_open_recovery_core r revision m o _ hwf hdirty hres hdisc hwf2
      rfl rfl rfl rfl ?_ ?_ ?_
    · exact idx_headTree_of_detached rfl rfl
    · exact List.lookup_cons_self
    · intro b' hb'
      unfold branchOf at hb'
      rw [hh] at hb'
      dsimp only at hb'
      exact Option.noConfusion hb'

/-- C4 counterexample: with a clean tree at entry and an unresolvable
revision, the CLI `open` command does not recover — the `except InvalidRef`
handler reads the never-assigned `snapshot` local and dies with the untyped
`UnboundLocalError`, refuting the "in particular also when the tree was
clean at entry" part of the claim. -/
theorem C4_counterexample :
    dirty ex0 = false ∧
    cli_open "nope" ex0 = (Except.error CliErr.unboundLocal, ex0) := by
  decide

/-- Witness for C4 at a concrete dirty one-commit repository and an
unresolvable revision. -/
theorem C4_cli_open_fallback_witness :
    (cli_open "nope" exDirty).1 ≠ Except.error CliErr.unboundLocal ∧
    (cli_open "nope" exDirty).1 = Except.ok () ∧
    ∀ p, p ∉ exDirty.ignored →
      (cli_open "nope" exDirty).2.worktree.lookup p = exDirty.worktree.lookup p :=
  have h := C4_cli_open_fallback exDirty "nope" "" (oidName 0) wf_exDirty
    (by decide) (by decide)
  ⟨h.1, h.2 (by decide)⟩

end Twit
